import Mathlib

/-!
Verification development for the data-pipeline-tools repository.

This file gives a shallow embedding, in Lean 4, of the two pieces of the
repository that the specification calls the "core":

* the JSON flattener (`flatten_columns` in `src/data_pipeline_tools/util.py`),
* the paginated batch fetcher (`get_data`, `get_data_for_page_range`,
  `get_all_data` in `src/asyncs.py`),
* the pagination-introspection helper (`get_harvest_pages` in
  `src/data_pipeline_tools/util.py`).

Python/pandas values are embedded as follows: a JSON-ish cell value is the
inductive `Cell` (None/NaN, int, str, bool, list, dict); a pandas
`DataFrame` with the default integer index is a `Table`: an ordered list of
column labels plus an ordered list of rows, each row a list of cells
aligned positionally with the labels.  Fallible Python code is embedded in
`Except`/`Option`.  HTTP collaborators are passed as explicit functions;
`asyncio.gather`'s concurrency is modelled by an explicit completion-order
schedule (a permutation of the task indices): tasks are executed in
completion order into a log of (task index, result) pairs, and the result
list is reconstructed from the log in task order, exactly as gather does.
-/

namespace DPT

/-- A Python/JSON value as it appears in a pandas object cell: `none` covers
both Python `None` and pandas `NaN`; `list` covers sequences; `dict` is a
string-keyed mapping with insertion order. -/
inductive Cell where
  | none : Cell
  | int (n : Int) : Cell
  | str (s : String) : Cell
  | bool (b : Bool) : Cell
  | list (xs : List Cell) : Cell
  | dict (kvs : List (String × Cell)) : Cell

/-- A record: the key/value pairs of a JSON object, in insertion order. -/
abbrev Item := List (String × Cell)

/-- First-match lookup in an ordered association list (Python dict access). -/
def lookupKV : List (String × Cell) → String → Option Cell
  | [], _ => Option.none
  | (k, v) :: rest, c => if k = c then some v else lookupKV rest c

/-- A pandas `DataFrame` with the default positional index: ordered column
labels and rows of cells aligned with the labels by position. -/
structure Table where
  cols : List String
  rows : List (List Cell)

/-- Well-formedness: every row has one cell per column label. -/
def Table.WF (t : Table) : Prop := ∀ r ∈ t.rows, r.length = t.cols.length

/-- The cells of column `c` (first occurrence of the label), reading each row
through the label/cell alignment; used only where `c` is known present. -/
def colCellsD (t : Table) (c : String) : List Cell :=
  t.rows.map (fun r => (lookupKV (t.cols.zip r) c).getD Cell.none)

/-- `df[c]` as a total observation: `some` (the cells of column `c`, in row
order) when the label exists, `none` otherwise. -/
def getCol (t : Table) (c : String) : Option (List Cell) :=
  if c ∈ t.cols then some (colCellsD t c) else Option.none

/-- Ordered-union insertion: append the key iff it is not already present
(Python dict key-order semantics, as used by pandas column inference). -/
def insertKey (acc : List String) (k : String) : List String :=
  if k ∈ acc then acc else acc ++ [k]

/-- Fold `insertKey` over a list of keys. -/
def addKeys (acc : List String) (ks : List String) : List String :=
  ks.foldl insertKey acc

/-- Column labels that `pd.DataFrame(list-of-dicts)` infers: the union of the
records' keys in order of first appearance. -/
def unionKeys (items : List Item) : List String :=
  items.foldl (fun acc it => addKeys acc (it.map Prod.fst)) []

/-- `pd.DataFrame(list-of-dicts)`: columns are the union of keys in first-seen
order; each record becomes one row, missing keys filled with NaN. -/
def recordsToTable (items : List Item) : Table :=
  { cols := unionKeys items
    rows := items.map (fun it =>
      (unionKeys items).map (fun c => (lookupKV it c).getD Cell.none)) }

/-- `DataFrame.add_prefix(p)`: prefix every column label, rows unchanged. -/
def prefixCols (p : String) (t : Table) : Table :=
  { cols := t.cols.map (fun c => p ++ c), rows := t.rows }

/-- `pd.concat([t1, t2], axis=1)` for two equal-height default-index frames:
column lists append, rows join positionally. -/
def concatCols (t1 t2 : Table) : Table :=
  { cols := t1.cols ++ t2.cols, rows := List.zipWith (· ++ ·) t1.rows t2.rows }

/-- Remove every occurrence of the label `c` from a label list. -/
def filterNeS (c : String) : List String → List String
  | [] => []
  | k :: ks => if k = c then filterNeS c ks else k :: filterNeS c ks

/-- Remove every pair whose key is `c` from an ordered association list. -/
def filterNeKV (c : String) : List (String × Cell) → List (String × Cell)
  | [] => []
  | p :: ps => if p.1 = c then filterNeKV c ps else p :: filterNeKV c ps

/-- `DataFrame.drop(c, axis=1)`: remove every column labelled `c` together
with the corresponding cell of each row.  (In `flatten_columns` the dropped
label is always present, so the `errors="raise"` path of pandas `drop` is
never taken and is not modelled.) -/
def dropCol (t : Table) (c : String) : Table :=
  { cols := filterNeS c t.cols
    rows := t.rows.map (fun r => (filterNeKV c (t.cols.zip r)).map Prod.snd) }

/-- `df[c] = df[c].apply(f)`: apply `f` to the cell of every column labelled
`c` in every row; `none` when the label is absent (pandas `KeyError`). -/
def applyCol (t : Table) (c : String) (f : Cell → Cell) : Option Table :=
  if c ∈ t.cols then
    some { cols := t.cols
           rows := t.rows.map (fun r =>
             (t.cols.zip r).map (fun p => if p.1 = c then f p.2 else p.2)) }
  else Option.none

/-- First normalization lambda of `flatten_columns`: values that are
instances of `float | int | list | str` (which in Python includes `bool`,
a subclass of `int`) are wrapped as `{"value": x}`; dicts and `None` pass
through. -/
def wrapScalar : Cell → Cell
  | Cell.none => Cell.none
  | Cell.dict kvs => Cell.dict kvs
  | c => Cell.dict [("value", c)]

/-- Second normalization lambda of `flatten_columns`: `None` becomes the
empty dict `{}`; everything else passes through. -/
def noneToEmpty : Cell → Cell
  | Cell.none => Cell.dict []
  | c => c

/-- The composition of the two normalization lambdas, cellwise. -/
def normalizeCell (c : Cell) : Cell := noneToEmpty (wrapScalar c)

/-- The key/value pairs of a cell known to be a dict.  In `flatten_columns`
this is applied only to normalized cells, which are always dicts (every
branch of `wrapScalar` followed by `noneToEmpty` yields a dict), so the
default branch is never exercised. -/
def cellKvs : Cell → List (String × Cell)
  | Cell.dict kvs => kvs
  | _ => []

/-- `pop(k)` on an ordered association list. -/
def popKey (acc : List (String × Cell)) (k : String) : List (String × Cell) :=
  filterNeKV k acc

/-- `dict.update` with a single key: overwrite in place when present,
append at the end when new. -/
def updKey (acc : List (String × Cell)) (k : String) (v : Cell) : List (String × Cell) :=
  if (lookupKV acc k).isSome then
    acc.map (fun p => if p.1 = k then (k, v) else p)
  else acc ++ [(k, v)]

/-- `dict.update(new)` over an ordered association list. -/
def dictUpdate (acc upd : List (String × Cell)) : List (String × Cell) :=
  upd.foldl (fun a p => updKey a p.1 p.2) acc

/-- pandas `nested_to_record` at `max_level=1`, per record: each top-level
key with a dict value is popped and its sub-keys appended (dot-joined, one
level); deeper dicts and non-dict values are left as they are. -/
def nestedToRecord1 (kvs : List (String × Cell)) : List (String × Cell) :=
  kvs.foldl
    (fun acc p =>
      match p.2 with
      | Cell.dict sub =>
          dictUpdate (popKey acc p.1) (sub.map (fun q => (p.1 ++ "." ++ q.1, q.2)))
      | _ => acc)
    kvs

/-- `pd.json_normalize(cells, max_level=1).add_prefix(c ++ "_")` for a list
of dict cells. -/
def jsonNormalizeP (c : String) (cells : List Cell) : Table :=
  prefixCols (c ++ "_") (recordsToTable (cells.map (fun x => nestedToRecord1 (cellKvs x))))

/-- Errors of the embedded `flatten_columns`:
`keyError c` is the pandas `KeyError` raised by `df[c]` when the label `c`
is absent; `unboundLocal` is the Python `UnboundLocalError` raised at
`return flat_df` when the loop body never ran.
`columnNotFound c` is modelled from the spec: the spec's `ColumnNotFoundError`
("signal `ColumnNotFoundError` ... source code does not guard this; spec
tightens it") — no code in the repository ever raises it; the constructor
exists only so that statements can mention it. -/
inductive FlatErr where
  | keyError (c : String) : FlatErr
  | unboundLocal : FlatErr
  | columnNotFound (c : String) : FlatErr
deriving DecidableEq

/-- One iteration of the `flatten_columns` loop for column `c` on the current
(mutated) frame `df`: normalize `df[c]` in place (two `apply` assignments),
json-normalize the column with prefix `c ++ "_"`, then rebuild `flat_df` as
`pd.concat([df, flattened_df], axis=1).drop(c, axis=1)` — note the concat is
with `df`, not with any previous `flat_df`, exactly as in the source.
Returns the mutated frame together with the iteration's `flat_df`. -/
def flattenOne (df : Table) (c : String) : Except FlatErr (Table × Table) :=
  match applyCol df c wrapScalar with
  | Option.none => Except.error (FlatErr.keyError c)
  | some df1 =>
    match applyCol df1 c noneToEmpty with
    | Option.none => Except.error (FlatErr.keyError c)
    | some df2 =>
      let flattened := jsonNormalizeP c (colCellsD df2 c)
      Except.ok (df2, dropCol (concatCols df2 flattened) c)

/-- The `for column in nested_columns` loop: threads the mutated frame and
the latest `flat_df` (absent before the first iteration). -/
def flattenLoop : Table → Option Table → List String → Except FlatErr (Table × Option Table)
  | df, ft, [] => Except.ok (df, ft)
  | df, _, c :: rest =>
    match flattenOne df c with
    | Except.error e => Except.error e
    | Except.ok (df', ft') => flattenLoop df' (some ft') rest

/-- `flatten_columns(df, nested_columns)` (util.py lines 77–99): run the
loop and return the final `flat_df`; if the loop body never ran, `flat_df`
is unassigned and Python raises `UnboundLocalError`. -/
def flatten_columns (df : Table) (nested_columns : List String) : Except FlatErr Table :=
  match flattenLoop df Option.none nested_columns with
  | Except.error e => Except.error e
  | Except.ok (_, some ft) => Except.ok ft
  | Except.ok (_, Option.none) => Except.error FlatErr.unboundLocal

/-- The state of the caller's `df` argument after a successful
`flatten_columns(df, nested_columns)` call: the in-place column assignments
`df[column] = df[column].apply(...)` mutate the caller's frame, and this
function returns that mutated frame. -/
def flatten_mutated (df : Table) (nested_columns : List String) : Except FlatErr Table :=
  match flattenLoop df Option.none nested_columns with
  | Except.error e => Except.error e
  | Except.ok (df', _) => Except.ok df'

/-! ## Batch fetcher (src/asyncs.py) -/

/-- Outcome of one HTTP GET followed by `.json()`, as either collaborator
delivers it (the aiohttp `session.get`/`await response.json()` of
`get_data`, or the synchronous `requests.get(url, headers=..., timeout=10)`
of `get_harvest_pages`): a transport failure (connection error, timeout),
or a response carrying its HTTP status code and a body that either decoded
to JSON or failed to decode. -/
inductive HttpResp where
  | transportError : HttpResp
  | response (status : Nat) (body : Except Unit Cell) : HttpResp

/-- Errors of the embedded fetch pipeline: `transport` is an aiohttp
network error (connection failure, timeout) raised while performing the
GET; `decodeError` is `await response.json()` failing to decode the body;
there is NO status-based error — `get_data` never calls
`raise_for_status` and aiohttp sessions do not raise for non-2xx status
codes by default, so no constructor corresponds to a 4xx/5xx response;
`keyError k` is `result[k]` with `k` absent; `typeError` is
indexing/iterating a value of the wrong shape; `badSchedule` is an artefact
of the explicit completion-order model (never reached for a schedule that
is a permutation of the task indices); `concatEmpty` is the `ValueError`
raised by `pd.concat([])`. -/
inductive FetchErr where
  | transport : FetchErr
  | decodeError : FetchErr
  | keyError (k : String) : FetchErr
  | typeError : FetchErr
  | badSchedule : FetchErr
  | concatEmpty : FetchErr
deriving DecidableEq

/-- What `get_data` observes of a response: a transport failure raises, a
body that fails to decode raises, and otherwise the decoded JSON body is
returned — the status code is ignored (no `raise_for_status` in the
source, and aiohttp does not raise on status by default), so a non-2xx
response with a JSON-decodable body succeeds. -/
def decodeResp : HttpResp → Except FetchErr Cell
  | HttpResp.transportError => Except.error FetchErr.transport
  | HttpResp.response _ (Except.error _) => Except.error FetchErr.decodeError
  | HttpResp.response _ (Except.ok c) => Except.ok c

/-- `get_data(url, headers)` (asyncs.py lines 9–23): one GET request plus
`await response.json()`, delegated to the HTTP collaborator `http` (which
covers the aiohttp session; auth, retries and TLS are outside the core).
The response status code is not checked. -/
def get_data {H : Type} (http : String → H → HttpResp)
    (url : String) (headers : H) : Except FetchErr Cell :=
  decodeResp (http url headers)

/-- Python `range(start, stop, step)` for a positive step, in its documented
closed form: element `i` is `start + step * i`, and the length is
`ceil((stop - start) / step)` (clipped at zero).  (A zero step raises
`ValueError` in Python; it is not used by the source and yields `[]` here.) -/
def pyRange (start stop step : Nat) : List Nat :=
  List.range' start ((stop - start + step - 1) / step) step

/-- Contiguous chunks of size `n` (last chunk possibly shorter); `[]` for
`n = 0`. -/
def chunksOf (n : Nat) (l : List α) : List (List α) :=
  (List.range ((l.length + n - 1) / n)).map (fun i => (l.drop (n * i)).take n)

/-- The completion log of a gather: tasks are executed in completion order
`order`, each producing its (index, result) pair. -/
def gatherLog {α : Type} (order : List Nat) (task : Nat → α) : List (Nat × α) :=
  order.map (fun i => (i, task i))

/-- First-match lookup of a task index in a completion log. -/
def lookupNat {α : Type} : List (Nat × α) → Nat → Option α
  | [], _ => Option.none
  | (k, v) :: rest, i => if k = i then some v else lookupNat rest i

/-- The exception carried by one completion-log entry, if any. -/
def errOf (p : Nat × Except FetchErr Cell) : Option FetchErr :=
  match p.2 with
  | Except.error e => some e
  | Except.ok _ => Option.none

/-- Read task `i`'s successful value out of a completion log. -/
def okLookup (log : List (Nat × Except FetchErr Cell)) (i : Nat) : Option Cell :=
  match lookupNat log i with
  | some (Except.ok v) => some v
  | _ => Option.none

/-- `asyncio.gather(*tasks)` over `n` tasks with explicit completion order:
the tasks run in completion order (producing the log); if any task raised,
the first exception in completion order propagates; otherwise the result
list is reassembled from the per-task results in task order — task order,
not completion order, exactly as gather guarantees. -/
def gatherE (n : Nat) (order : List Nat) (task : Nat → Except FetchErr Cell) :
    Except FetchErr (List Cell) :=
  match (gatherLog order task).findSome? errOf with
  | some e => Except.error e
  | Option.none =>
    match (List.range n).mapM (okLookup (gatherLog order task)) with
    | some vs => Except.ok vs
    | Option.none => Except.error FetchErr.badSchedule

/-- `result[key]` followed by iterating the array into records: the page
body must be a JSON object containing `key`, whose value must be an array;
each element becomes one record.  (Array elements that are not objects are
not modelled; every caller in the repository extracts arrays of objects.) -/
def extractItems (key : String) (body : Cell) : Except FetchErr (List Item) :=
  match body with
  | Cell.dict kvs =>
    match lookupKV kvs key with
    | Option.none => Except.error (FetchErr.keyError key)
    | some (Cell.list xs) =>
      let rec toItems : List Cell → Except FetchErr (List Item)
        | [] => Except.ok []
        | Cell.dict kv :: rest =>
          (match toItems rest with
           | Except.ok its => Except.ok (kv :: its)
           | Except.error e => Except.error e)
        | _ :: _ => Except.error FetchErr.typeError
      toItems xs
    | some _ => Except.error FetchErr.typeError
  | _ => Except.error FetchErr.typeError

/-- The records contributed by page `i`: fetch `f"{url}{i}"` and extract the
array at `key`. -/
def pageItems {H : Type} (http : String → H → HttpResp)
    (headers : H) (key url : String) (i : Nat) : Except FetchErr (List Item) :=
  match get_data http (url ++ toString i) headers with
  | Except.error e => Except.error e
  | Except.ok body => extractItems key body

/-- Sequence a list of `Except` computations, propagating the first error. -/
def mapME {α β : Type} (f : α → Except FetchErr β) : List α → Except FetchErr (List β)
  | [] => Except.ok []
  | a :: l =>
    match f a with
    | Except.error e => Except.error e
    | Except.ok b =>
      match mapME f l with
      | Except.error e => Except.error e
      | Except.ok bs => Except.ok (b :: bs)

/-- The URLs `f"{url}{i}"` for `i in range(start_page, end_page + 1)`. -/
def pageUrls (url : String) (start_page end_page : Nat) : List String :=
  (pyRange start_page (end_page + 1) 1).map (fun i => url ++ toString i)

/-- `get_data_for_page_range(url, start_page, end_page, headers, key)`
(asyncs.py lines 26–52): create one task per page of
`range(start_page, end_page + 1)` with URL `f"{url}{i}"`, gather them
concurrently (with completion order `order`), then build
`pd.DataFrame([item for result in results for item in result[key]])`.
Returns the result together with the list of URLs requested. -/
def get_data_for_page_range {H : Type} (http : String → H → HttpResp)
    (url : String) (start_page end_page : Nat) (headers : H) (key : String)
    (order : List Nat) : Except FetchErr Table × List String :=
  (match gatherE (pageUrls url start_page end_page).length order
      (fun j => get_data http ((pageUrls url start_page end_page).getD j "") headers) with
   | Except.error e => Except.error e
   | Except.ok bodies =>
     match mapME (extractItems key) bodies with
     | Except.error e => Except.error e
     | Except.ok itemss => Except.ok (recordsToTable itemss.flatten),
   pageUrls url start_page end_page)

/-- `pd.concat(dfs)` (axis=0, outer join, followed in the source by
`reset_index(drop=True)`, a no-op under the positional row model):
`ValueError` on an empty list; otherwise columns are the ordered union of
the frames' columns and every row is reindexed to the union, missing
labels filled with NaN. -/
def concatTables : List Table → Except FetchErr Table
  | [] => Except.error FetchErr.concatEmpty
  | t :: ts =>
    Except.ok
      { cols := (t :: ts).foldl (fun acc u => addKeys acc u.cols) []
        rows := (t :: ts).flatMap (fun u => u.rows.map (fun r =>
          ((t :: ts).foldl (fun acc u => addKeys acc u.cols) []).map
            (fun c => (lookupKV (u.cols.zip r) c).getD Cell.none))) }

/-- The batch loop of `get_all_data`: for each `start_page`, compute
`end_page = min(start_page + batch_size - 1, pages)`, await the batch
(completion order `sched start_page`), collect its frame, abort on the
first failure.  Returns the collected frames and the per-batch URL trace
(requests of a failing batch are still issued; later batches are not). -/
def runBatches {H : Type} (http : String → H → HttpResp)
    (url : String) (headers : H) (pages : Nat) (key : String) (batch_size : Nat)
    (sched : Nat → List Nat) :
    List Nat → Except FetchErr (List Table) × List (List String)
  | [] => (Except.ok [], [])
  | s :: rest =>
    match (get_data_for_page_range http url s (min (s + batch_size - 1) pages)
        headers key (sched s)).1 with
    | Except.error err =>
      (Except.error err,
       [(get_data_for_page_range http url s (min (s + batch_size - 1) pages)
          headers key (sched s)).2])
    | Except.ok t =>
      (match (runBatches http url headers pages key batch_size sched rest).1 with
       | Except.ok ts => Except.ok (t :: ts)
       | Except.error er => Except.error er,
       (get_data_for_page_range http url s (min (s + batch_size - 1) pages)
          headers key (sched s)).2
         :: (runBatches http url headers pages key batch_size sched rest).2)

/-- `get_all_data(url, headers, pages, key, batch_size)` (asyncs.py lines
55–78): iterate `start_page` over `range(1, pages + 1, batch_size)`,
awaiting each batch strictly before the next starts, then
`pd.concat(dfs).reset_index(drop=True)`.  `sched s` is the completion
order of the batch starting at page `s`.  Returns the result together with
the per-batch trace of URLs requested. -/
def get_all_data {H : Type} (http : String → H → HttpResp)
    (url : String) (headers : H) (pages : Nat) (key : String) (batch_size : Nat)
    (sched : Nat → List Nat) : Except FetchErr Table × List (List String) :=
  (match (runBatches http url headers pages key batch_size sched
      (pyRange 1 (pages + 1) batch_size)).1 with
   | Except.error e => Except.error e
   | Except.ok dfs => concatTables dfs,
   (runBatches http url headers pages key batch_size sched
      (pyRange 1 (pages + 1) batch_size)).2)

/-- Modelled from the spec: the sequential reference fetch that claim C2
compares against — fetch pages `1..pages` one after another in page-number
order and build one table from all their records, in that order ("a
sequential reference fetch of pages 1..total_pages in order"). -/
def sequential_reference_fetch {H : Type} (http : String → H → HttpResp)
    (url : String) (headers : H) (pages : Nat) (key : String) :
    Except FetchErr Table :=
  match mapME (pageItems http headers key url) (List.range' 1 pages) with
  | Except.error e => Except.error e
  | Except.ok itemss => Except.ok (recordsToTable itemss.flatten)

/-! ## Pagination introspection (src/data_pipeline_tools/util.py, get_harvest_pages) -/

/-- An uncaught Python exception of `get_harvest_pages`: indexing a decoded
non-dict body with a string key raises `TypeError`, which the function's
`except (RequestException, KeyError)` clause does not catch. -/
inductive PyErr where
  | typeError : PyErr
deriving DecidableEq

/-- `get_harvest_pages(url, headers)` (util.py lines 102–124): GET
`f"{url}1"`, `raise_for_status()` (raises for status codes 400–599),
decode JSON, return `(data["total_pages"], data["total_entries"])`; any
`RequestException` or `KeyError` is caught and `(None, None)` is returned.
Returns the outcome together with the list of URLs requested. -/
def get_harvest_pages {H : Type} (http : String → H → HttpResp)
    (url : String) (headers : H) :
    Except PyErr (Option Cell × Option Cell) × List String :=
  let u := url ++ "1"
  (match http u headers with
   | HttpResp.transportError => Except.ok (Option.none, Option.none)
   | HttpResp.response status body =>
     if 400 ≤ status ∧ status < 600 then Except.ok (Option.none, Option.none)
     else
       match body with
       | Except.error _ => Except.ok (Option.none, Option.none)
       | Except.ok (Cell.dict kvs) =>
         match lookupKV kvs "total_pages" with
         | Option.none => Except.ok (Option.none, Option.none)
         | some tp =>
           match lookupKV kvs "total_entries" with
           | Option.none => Except.ok (Option.none, Option.none)
           | some te => Except.ok (some tp, some te)
       | Except.ok _ => Except.error PyErr.typeError,
   [u])

/-! ## Helper forms used to state and prove the lemmas -/

/-- The in-place column normalization of one `flatten_columns` iteration, in
one pass: every cell of column `c` becomes `normalizeCell` of itself. -/
def mutTab (t : Table) (c : String) : Table :=
  { cols := t.cols
    rows := t.rows.map (fun r =>
      (t.cols.zip r).map (fun p => if p.1 = c then normalizeCell p.2 else p.2)) }

/-- Repeated in-place normalization over a list of columns. -/
def mutAll (t : Table) (cs : List String) : Table := cs.foldl mutTab t

/-- The `flat_df` built by one `flatten_columns` iteration from the current
mutated frame `d`. -/
def flatTab (d : Table) (c : String) : Table :=
  dropCol (concatCols d (jsonNormalizeP c (colCellsD d c))) c

/-- The Python test `isinstance(x, float | int | list | str)` of the first
normalization lambda (true for scalars and sequences, including `bool`, a
subclass of `int`; false for dicts and for `None`). -/
def isPyScalarOrSeq : Cell → Bool
  | Cell.int _ => true
  | Cell.str _ => true
  | Cell.bool _ => true
  | Cell.list _ => true
  | _ => false

/-- The payload of a successful fetch result (`Cell.none` for a failed one;
used only to name the value of a task already known to have succeeded). -/
def okValD : Except FetchErr Cell → Cell
  | Except.ok v => v
  | Except.error _ => Cell.none

/-! ## Lemmas: association-list and zip plumbing -/

theorem lookupKV_append (l₁ l₂ : List (String × Cell)) (c : String) :
    lookupKV (l₁ ++ l₂) c = (lookupKV l₁ c).or (lookupKV l₂ c) := by
  induction l₁ with
  | nil => simp [lookupKV]
  | cons p rest ih =>
    obtain ⟨k, v⟩ := p
    by_cases hk : k = c <;> simp [lookupKV, hk, ih]

theorem lookupKV_filterNeKV (l : List (String × Cell)) (c d : String) (h : d ≠ c) :
    lookupKV (filterNeKV c l) d = lookupKV l d := by
  induction l with
  | nil => rfl
  | cons p rest ih =>
    obtain ⟨k, v⟩ := p
    by_cases hk : k = c
    · rw [show filterNeKV c ((k, v) :: rest) = filterNeKV c rest from by
        simp [filterNeKV, hk], ih]
      show _ = if k = d then some v else lookupKV rest d
      rw [if_neg (fun hkd : k = d => h (hkd ▸ hk))]
    · rw [show filterNeKV c ((k, v) :: rest) = (k, v) :: filterNeKV c rest from by
        simp [filterNeKV, hk]]
      show (if k = d then some v else lookupKV (filterNeKV c rest) d) = _
      rw [ih]
      rfl

theorem lookupKV_zip_isSome (cols : List String) (r : List Cell) (c : String)
    (hlen : cols.length ≤ r.length) (hc : c ∈ cols) :
    (lookupKV (cols.zip r) c).isSome := by
  induction cols generalizing r with
  | nil => cases hc
  | cons k ks ih =>
    cases r with
    | nil => simp at hlen
    | cons v vs =>
      by_cases hk : k = c
      · simp [List.zip, lookupKV, hk]
      · rcases List.mem_cons.mp hc with h | h
        · exact absurd h.symm hk
        · simpa [List.zip, lookupKV, hk] using ih vs (by simpa using hlen) h

theorem zip_map_snd (cols : List String) (r : List Cell) (g : String × Cell → Cell) :
    cols.zip ((cols.zip r).map g) = (cols.zip r).map (fun p => (p.1, g p)) := by
  induction cols generalizing r with
  | nil => rfl
  | cons k ks ih =>
    cases r with
    | nil => rfl
    | cons v vs => simp [List.zip_cons_cons, ih]

theorem zip_fst_snd (l : List (String × Cell)) :
    (l.map Prod.fst).zip (l.map Prod.snd) = l := by
  induction l with
  | nil => rfl
  | cons p rest ih => simp [List.zip_cons_cons, ih]

theorem lookupKV_mod_ne (l : List (String × Cell)) (c d : String) (f : Cell → Cell)
    (h : d ≠ c) :
    lookupKV (l.map (fun p => (p.1, if p.1 = c then f p.2 else p.2))) d = lookupKV l d := by
  induction l with
  | nil => rfl
  | cons p rest ih =>
    obtain ⟨k, v⟩ := p
    show (if k = d then some (if k = c then f v else v)
          else lookupKV (rest.map (fun p => (p.1, if p.1 = c then f p.2 else p.2))) d)
        = if k = d then some v else lookupKV rest d
    by_cases hk : k = d
    · rw [if_pos hk, if_pos hk, if_neg (fun hc => h (hk ▸ hc))]
    · rw [if_neg hk, if_neg hk, ih]

theorem lookupKV_mod_eq (l : List (String × Cell)) (c : String) (f : Cell → Cell) :
    lookupKV (l.map (fun p => (p.1, if p.1 = c then f p.2 else p.2))) c
      = (lookupKV l c).map f := by
  induction l with
  | nil => rfl
  | cons p rest ih =>
    obtain ⟨k, v⟩ := p
    by_cases hk : k = c <;> simp [lookupKV, hk, ih]

/-! ## Lemmas: normalization -/

theorem normalizeCell_eq_cases (x : Cell) :
    normalizeCell x = (match x with
      | Cell.none => Cell.dict []
      | Cell.dict kvs => Cell.dict kvs
      | c => Cell.dict [("value", c)]) := by
  cases x <;> rfl

theorem normalizeCell_idem (x : Cell) : normalizeCell (normalizeCell x) = normalizeCell x := by
  cases x <;> rfl

/-! ## Lemmas: the flatten loop -/

theorem mutTab_cols (t : Table) (c : String) : (mutTab t c).cols = t.cols := rfl

theorem mutTab_WF (t : Table) (c : String) (h : t.WF) : (mutTab t c).WF := by
  intro r hr
  simp only [mutTab, List.mem_map] at hr
  obtain ⟨r0, hr0, rfl⟩ := hr
  simp [mutTab, List.length_zip, h r0 hr0]

theorem colCellsD_mutTab_ne (t : Table) (c d : String) (h : d ≠ c) :
    colCellsD (mutTab t c) d = colCellsD t d := by
  unfold colCellsD mutTab
  simp only [List.map_map]
  refine List.map_congr_left (fun r _ => ?_)
  simp only [Function.comp]
  rw [zip_map_snd, lookupKV_mod_ne _ _ _ _ h]

theorem colCellsD_mutTab_self (t : Table) (c : String) (hWF : t.WF) (hc : c ∈ t.cols) :
    colCellsD (mutTab t c) c = (colCellsD t c).map normalizeCell := by
  unfold colCellsD mutTab
  simp only [List.map_map]
  refine List.map_congr_left (fun r hr => ?_)
  simp only [Function.comp]
  rw [zip_map_snd, lookupKV_mod_eq]
  obtain ⟨v, hv⟩ := Option.isSome_iff_exists.mp
    (lookupKV_zip_isSome t.cols r c (le_of_eq (hWF r hr).symm) hc)
  rw [hv]
  rfl

theorem getCol_mutTab_ne (t : Table) (c d : String) (h : d ≠ c) :
    getCol (mutTab t c) d = getCol t d := by
  unfold getCol
  rw [mutTab_cols, colCellsD_mutTab_ne t c d h]

theorem getCol_mutTab_self (t : Table) (c : String) (hWF : t.WF) :
    getCol (mutTab t c) c = (getCol t c).map (List.map normalizeCell) := by
  unfold getCol
  rw [mutTab_cols]
  by_cases hc : c ∈ t.cols
  · rw [if_pos hc, if_pos hc, colCellsD_mutTab_self t c hWF hc]
    rfl
  · rw [if_neg hc, if_neg hc]
    rfl

theorem mutAll_cols (t : Table) (cs : List String) : (mutAll t cs).cols = t.cols := by
  induction cs generalizing t with
  | nil => rfl
  | cons c rest ih => simpa [mutAll, List.foldl_cons] using ih (mutTab t c)

theorem mutAll_WF (t : Table) (cs : List String) (h : t.WF) : (mutAll t cs).WF := by
  induction cs generalizing t with
  | nil => exact h
  | cons c rest ih => exact ih (mutTab t c) (mutTab_WF t c h)

theorem getCol_mutAll_not_mem (t : Table) (cs : List String) (d : String) (hd : d ∉ cs) :
    getCol (mutAll t cs) d = getCol t d := by
  induction cs generalizing t with
  | nil => rfl
  | cons c rest ih =>
    have h1 : d ∉ rest := fun h => hd (List.mem_cons_of_mem _ h)
    have h2 : d ≠ c := fun h => hd (h ▸ List.mem_cons_self _ _)
    calc getCol (mutAll (mutTab t c) rest) d
        = getCol (mutTab t c) d := ih (mutTab t c) h1
      _ = getCol t d := getCol_mutTab_ne t c d h2

theorem getCol_mutAll_mem (t : Table) (cs : List String) (d : String)
    (hWF : t.WF) (hd : d ∈ cs) :
    getCol (mutAll t cs) d = (getCol t d).map (List.map normalizeCell) := by
  induction cs generalizing t with
  | nil => cases hd
  | cons c rest ih =>
    show getCol (mutAll (mutTab t c) rest) d = _
    by_cases hdr : d ∈ rest
    · rw [ih (mutTab t c) (mutTab_WF t c hWF) hdr]
      by_cases hdc : d = c
      · subst hdc
        rw [getCol_mutTab_self t d hWF, Option.map_map]
        rw [show (List.map normalizeCell ∘ List.map normalizeCell)
              = fun l => (l.map normalizeCell).map normalizeCell from rfl]
        congr 1
        funext l
        rw [List.map_map]
        exact List.map_congr_left (fun x _ => normalizeCell_idem x)
      · rw [getCol_mutTab_ne t c d hdc]
    · have hdc : d = c := by
        rcases List.mem_cons.mp hd with h | h
        · exact h
        · exact absurd h hdr
      subst hdc
      rw [getCol_mutAll_not_mem (mutTab t d) rest d hdr]
      exact getCol_mutTab_self t d hWF

theorem applyCol_pos (t : Table) (c : String) (f : Cell → Cell) (h : c ∈ t.cols) :
    applyCol t c f
      = some { cols := t.cols
               rows := t.rows.map (fun r =>
                 (t.cols.zip r).map (fun p => if p.1 = c then f p.2 else p.2)) } := by
  unfold applyCol
  rw [if_pos h]

theorem applyCol_neg (t : Table) (c : String) (f : Cell → Cell) (h : c ∉ t.cols) :
    applyCol t c f = Option.none := by
  unfold applyCol
  rw [if_neg h]

theorem flattenOne_eq (df : Table) (c : String) (h : c ∈ df.cols) :
    flattenOne df c = Except.ok (mutTab df c, flatTab (mutTab df c) c) := by
  have h2 : ({ cols := df.cols
               rows := (df.rows.map (fun r =>
                   (df.cols.zip r).map (fun p => if p.1 = c then wrapScalar p.2 else p.2))).map
                 (fun r =>
                   (df.cols.zip r).map (fun p => if p.1 = c then noneToEmpty p.2 else p.2)) }
             : Table) = mutTab df c := by
    unfold mutTab
    congr 1
    rw [List.map_map]
    refine List.map_congr_left (fun r _ => ?_)
    simp only [Function.comp]
    rw [zip_map_snd, List.map_map]
    refine List.map_congr_left (fun p _ => ?_)
    simp only [Function.comp]
    by_cases hp : p.1 = c
    · rw [if_pos hp, if_pos hp, if_pos hp]
      rfl
    · rw [if_neg hp, if_neg hp, if_neg hp]
  have h3 := applyCol_pos
    { cols := df.cols
      rows := df.rows.map (fun r =>
        (df.cols.zip r).map (fun p => if p.1 = c then wrapScalar p.2 else p.2)) }
    c noneToEmpty h
  unfold flattenOne
  rw [applyCol_pos df c wrapScalar h]
  dsimp only
  rw [h3]
  dsimp only
  rw [h2]
  rfl

theorem flattenOne_missing (df : Table) (c : String) (h : c ∉ df.cols) :
    flattenOne df c = Except.error (FlatErr.keyError c) := by
  simp only [flattenOne, applyCol_neg df c wrapScalar h]

theorem getLast?_mem {α : Type} (l : List α) (a : α) (h : l.getLast? = some a) : a ∈ l := by
  induction l with
  | nil => cases h
  | cons x xs ih =>
    cases xs with
    | nil =>
      cases h
      exact List.mem_cons_self _ _
    | cons y ys =>
      rw [List.getLast?_cons_cons] at h
      exact List.mem_cons_of_mem _ (ih h)

theorem flattenLoop_ok (cs : List String) : ∀ (df : Table) (ft : Option Table),
    (∀ c ∈ cs, c ∈ df.cols) → cs ≠ [] →
    ∃ cl, cs.getLast? = some cl
      ∧ flattenLoop df ft cs
          = Except.ok (mutAll df cs, some (flatTab (mutAll df cs) cl)) := by
  induction cs with
  | nil => intro _ _ _ hne; exact absurd rfl hne
  | cons c rest ih =>
    intro df ft hcs _
    have hc : c ∈ df.cols := hcs c (List.mem_cons_self _ _)
    cases rest with
    | nil =>
      refine ⟨c, rfl, ?_⟩
      show (match flattenOne df c with
            | Except.error e => Except.error e
            | Except.ok (df', ft') => flattenLoop df' (some ft') []) = _
      rw [flattenOne_eq df c hc]
      rfl
    | cons r rs =>
      have hrest : ∀ x ∈ r :: rs, x ∈ (mutTab df c).cols := by
        intro x hx
        rw [mutTab_cols]
        exact hcs x (List.mem_cons_of_mem _ hx)
      obtain ⟨cl, hcl, hloop⟩ := ih (mutTab df c) (some (flatTab (mutTab df c) c)) hrest
        (by simp)
      refine ⟨cl, ?_, ?_⟩
      · rw [List.getLast?_cons_cons]
        exact hcl
      · show (match flattenOne df c with
              | Except.error e => Except.error e
              | Except.ok (df', ft') => flattenLoop df' (some ft') (r :: rs)) = _
        rw [flattenOne_eq df c hc]
        dsimp only
        rw [hloop]
        rfl

theorem flattenLoop_missing (pre : List String) : ∀ (df : Table) (ft : Option Table)
    (name : String) (post : List String),
    (∀ c ∈ pre, c ∈ df.cols) → name ∉ df.cols →
    flattenLoop df ft (pre ++ name :: post) = Except.error (FlatErr.keyError name) := by
  induction pre with
  | nil =>
    intro df ft name post _ hname
    show (match flattenOne df name with
          | Except.error e => Except.error e
          | Except.ok (df', ft') => flattenLoop df' (some ft') post) = _
    rw [flattenOne_missing df name hname]
  | cons c pre' ih =>
    intro df ft name post hpre hname
    have hc : c ∈ df.cols := hpre c (List.mem_cons_self _ _)
    show (match flattenOne df c with
          | Except.error e => Except.error e
          | Except.ok (df', ft') => flattenLoop df' (some ft') (pre' ++ name :: post)) = _
    rw [flattenOne_eq df c hc]
    exact ih (mutTab df c) _ name post
      (fun x hx => by rw [mutTab_cols]; exact hpre x (List.mem_cons_of_mem _ hx))
      (by rw [mutTab_cols]; exact hname)

theorem flatten_columns_eq (df : Table) (cs : List String)
    (hcs : ∀ c ∈ cs, c ∈ df.cols) (hne : cs ≠ []) :
    ∃ cl, cl ∈ cs
      ∧ flatten_columns df cs = Except.ok (flatTab (mutAll df cs) cl) := by
  obtain ⟨cl, hcl, hloop⟩ := flattenLoop_ok cs df Option.none hcs hne
  refine ⟨cl, getLast?_mem cs cl hcl, ?_⟩
  unfold flatten_columns
  rw [hloop]

theorem flatten_mutated_eq (df : Table) (cs : List String)
    (hcs : ∀ c ∈ cs, c ∈ df.cols) :
    flatten_mutated df cs = Except.ok (mutAll df cs) := by
  cases hne : cs with
  | nil => rfl
  | cons c rest =>
    obtain ⟨cl, _, hloop⟩ := flattenLoop_ok (c :: rest) df Option.none (hne ▸ hcs) (by simp)
    unfold flatten_mutated
    rw [hloop]

/-! ## Lemmas: frame preservation through concat and drop -/

theorem mem_filterNeS (c name : String) (l : List String) (h : name ≠ c) :
    name ∈ filterNeS c l ↔ name ∈ l := by
  induction l with
  | nil => simp [filterNeS]
  | cons k ks ih =>
    by_cases hk : k = c
    · rw [show filterNeS c (k :: ks) = filterNeS c ks from by simp [filterNeS, hk], ih]
      subst hk
      exact ⟨fun hm => List.mem_cons_of_mem _ hm,
             fun hm => (List.mem_cons.mp hm).elim (fun he => absurd he h) id⟩
    · rw [show filterNeS c (k :: ks) = k :: filterNeS c ks from by simp [filterNeS, hk]]
      simp [ih]

theorem filterNeKV_fst (c : String) : ∀ (cols : List String) (r : List Cell),
    cols.length ≤ r.length →
    (filterNeKV c (cols.zip r)).map Prod.fst = filterNeS c cols := by
  intro cols
  induction cols with
  | nil => intro r _; rfl
  | cons k ks ih =>
    intro r hlen
    cases r with
    | nil => simp at hlen
    | cons v vs =>
      rw [List.zip_cons_cons]
      by_cases hk : k = c
      · rw [show filterNeKV c ((k, v) :: ks.zip vs) = filterNeKV c (ks.zip vs) from by
          simp [filterNeKV, hk]]
        rw [show filterNeS c (k :: ks) = filterNeS c ks from by simp [filterNeS, hk]]
        exact ih vs (by simpa using hlen)
      · rw [show filterNeKV c ((k, v) :: ks.zip vs) = (k, v) :: filterNeKV c (ks.zip vs) from by
          simp [filterNeKV, hk]]
        rw [show filterNeS c (k :: ks) = k :: filterNeS c ks from by simp [filterNeS, hk]]
        rw [List.map_cons, ih vs (by simpa using hlen)]

theorem getCol_dropCol_ne (t : Table) (c name : String) (hWF : t.WF) (hne : name ≠ c) :
    getCol (dropCol t c) name = getCol t name := by
  unfold getCol dropCol colCellsD
  by_cases hname : name ∈ t.cols
  · rw [if_pos ((mem_filterNeS c name t.cols hne).mpr hname), if_pos hname]
    simp only [List.map_map]
    congr 1
    refine List.map_congr_left (fun r hr => ?_)
    simp only [Function.comp]
    rw [show (filterNeS c t.cols).zip ((filterNeKV c (t.cols.zip r)).map Prod.snd)
          = filterNeKV c (t.cols.zip r) from by
      rw [← filterNeKV_fst c t.cols r (le_of_eq (hWF r hr).symm), zip_fst_snd]]
    rw [lookupKV_filterNeKV _ c name hne]
  · rw [if_neg (fun hm => hname ((mem_filterNeS c name t.cols hne).mp hm)), if_neg hname]

theorem zipWith_append_map {β : Type} (f f' : List Cell → β) :
    ∀ (l1 l2 : List (List Cell)), l2.length = l1.length →
    (∀ r ∈ l1, ∀ r2, f (r ++ r2) = f' r) →
    (List.zipWith (fun a b => a ++ b) l1 l2).map f = l1.map f' := by
  intro l1
  induction l1 with
  | nil => intro l2 _ _; rfl
  | cons r rs ih =>
    intro l2 hlen hpt
    cases l2 with
    | nil => simp at hlen
    | cons r2 r2s =>
      rw [List.zipWith_cons_cons, List.map_cons, List.map_cons,
        hpt r (List.mem_cons_self _ _) r2,
        ih r2s (by simpa using hlen) (fun x hx => hpt x (List.mem_cons_of_mem _ hx))]

theorem getCol_concatCols_left (t1 t2 : Table) (name : String)
    (hWF : t1.WF) (hlen : t2.rows.length = t1.rows.length) (hname : name ∈ t1.cols) :
    getCol (concatCols t1 t2) name = getCol t1 name := by
  unfold getCol concatCols colCellsD
  rw [if_pos (List.mem_append_left _ hname), if_pos hname]
  congr 1
  refine zipWith_append_map _ _ t1.rows t2.rows hlen (fun r hr r2 => ?_)
  rw [List.zip_append (hWF r hr).symm, lookupKV_append]
  obtain ⟨v, hv⟩ := Option.isSome_iff_exists.mp
    (lookupKV_zip_isSome t1.cols r name (le_of_eq (hWF r hr).symm) hname)
  rw [hv]
  rfl

theorem zipWith_append_WF : ∀ (l1 l2 : List (List Cell)) (n1 n2 : Nat),
    (∀ r ∈ l1, r.length = n1) → (∀ r ∈ l2, r.length = n2) →
    ∀ x ∈ List.zipWith (fun a b => a ++ b) l1 l2, x.length = n1 + n2 := by
  intro l1
  induction l1 with
  | nil => intro l2 n1 n2 _ _ x hx; cases hx
  | cons r rs ih =>
    intro l2 n1 n2 h1 h2 x hx
    cases l2 with
    | nil => cases hx
    | cons r2 r2s =>
      rw [List.zipWith_cons_cons] at hx
      rcases List.mem_cons.mp hx with hx | hx
      · subst hx
        rw [List.length_append, h1 r (List.mem_cons_self _ _),
          h2 r2 (List.mem_cons_self _ _)]
      · exact ih r2s n1 n2 (fun a ha => h1 a (List.mem_cons_of_mem _ ha))
          (fun b hb => h2 b (List.mem_cons_of_mem _ hb)) x hx

theorem concatCols_WF (t1 t2 : Table) (h1 : t1.WF) (h2 : t2.WF) :
    (concatCols t1 t2).WF := by
  intro r hr
  rw [show (concatCols t1 t2).cols = t1.cols ++ t2.cols from rfl, List.length_append]
  exact zipWith_append_WF t1.rows t2.rows _ _ h1 h2 r hr

theorem jsonNormalizeP_WF (c : String) (cells : List Cell) : (jsonNormalizeP c cells).WF := by
  intro r hr
  simp only [jsonNormalizeP, prefixCols, recordsToTable, List.mem_map] at hr ⊢
  obtain ⟨it, _, rfl⟩ := hr
  simp [List.length_map]

theorem jsonNormalizeP_rows_length (c : String) (cells : List Cell) :
    (jsonNormalizeP c cells).rows.length = cells.length := by
  simp [jsonNormalizeP, prefixCols, recordsToTable]

theorem getCol_flatTab_ne (d : Table) (c name : String)
    (hWF : d.WF) (hname : name ∈ d.cols) (hne : name ≠ c) :
    getCol (flatTab d c) name = getCol d name := by
  unfold flatTab
  rw [getCol_dropCol_ne _ c name
    (concatCols_WF d _ hWF (jsonNormalizeP_WF c (colCellsD d c))) hne]
  exact getCol_concatCols_left d _ name hWF
    (by rw [jsonNormalizeP_rows_length]; simp [colCellsD]) hname

/-! ## Lemmas: Python ranges and batch chunking -/

theorem pyRange_nil (start stop step : Nat) (h : stop ≤ start) :
    pyRange start stop step = [] := by
  unfold pyRange
  rw [show stop - start = 0 from by omega]
  rcases Nat.eq_zero_or_pos step with hs | hs
  · subst hs; rfl
  · rw [Nat.div_eq_of_lt (by omega)]
    rfl

theorem pyRange_cons (start stop step : Nat) (hstep : 0 < step) (h : start < stop) :
    pyRange start stop step = start :: pyRange (start + step) stop step := by
  unfold pyRange
  have hcount : (stop - start + step - 1) / step
      = (stop - (start + step) + step - 1) / step + 1 := by
    rw [show stop - start + step - 1 = (stop - start - 1) + step from by omega,
      Nat.add_div_right _ hstep]
    congr 1
    rcases le_or_lt stop (start + step) with hc | hc
    · rw [Nat.div_eq_of_lt (show stop - start - 1 < step from by omega),
        Nat.div_eq_of_lt (show stop - (start + step) + step - 1 < step from by omega)]
    · congr 1
      omega
  rw [hcount, List.range'_succ]

theorem pyRange_one (s t : Nat) : pyRange s t 1 = List.range' s (t - s) := by
  unfold pyRange
  rw [Nat.add_sub_cancel, Nat.div_one]

theorem length_pyRange (start stop step : Nat) :
    (pyRange start stop step).length = (stop - start + step - 1) / step := by
  simp [pyRange, List.length_range']

theorem mem_pyRange_bounds (start stop step s : Nat) (hstep : 0 < step)
    (h : s ∈ pyRange start stop step) : start ≤ s ∧ s < stop := by
  unfold pyRange at h
  obtain ⟨i, hi, rfl⟩ := List.mem_range'.mp h
  constructor
  · omega
  · have h1 : step * (i + 1) ≤ step * ((stop - start + step - 1) / step) :=
      Nat.mul_le_mul_left step hi
    have h2 : (stop - start + step - 1) / step * step ≤ stop - start + step - 1 :=
      Nat.div_mul_le_self _ _
    rw [Nat.mul_comm _ (i + 1)] at h1
    rw [Nat.mul_comm] at h2
    rw [show (i + 1) * step = i * step + step from by rw [Nat.succ_mul]] at h1
    rw [Nat.mul_comm step i] at *
    omega

theorem chunksOf_nil {α : Type} (n : Nat) : chunksOf n ([] : List α) = [] := by
  unfold chunksOf
  rw [show ([] : List α).length + n - 1 = n - 1 from by simp]
  rcases Nat.eq_zero_or_pos n with hn | hn
  · subst hn; rfl
  · rw [Nat.div_eq_of_lt (by omega)]
    rfl

theorem chunksOf_cons {α : Type} (n : Nat) (l : List α) (hn : 0 < n) (hl : l ≠ []) :
    chunksOf n l = l.take n :: chunksOf n (l.drop n) := by
  unfold chunksOf
  have hlen : 0 < l.length := List.length_pos.mpr hl
  have hcount : (l.length + n - 1) / n = ((l.drop n).length + n - 1) / n + 1 := by
    rw [List.length_drop,
      show l.length + n - 1 = (l.length - 1) + n from by omega,
      Nat.add_div_right _ hn]
    congr 1
    rcases le_or_lt l.length n with hc | hc
    · rw [Nat.div_eq_of_lt (show l.length - 1 < n from by omega),
        Nat.div_eq_of_lt (show l.length - n + n - 1 < n from by omega)]
    · congr 1
      omega
  rw [hcount, List.range_succ_eq_map, List.map_cons, List.map_map,
    List.cons_eq_cons]
  constructor
  · rw [Nat.mul_zero, List.drop_zero]
  · refine List.map_congr_left (fun i _ => ?_)
    simp only [Function.comp]
    rw [List.drop_drop, Nat.mul_succ, Nat.add_comm (n * i) n]

theorem chunksOf_flatten {α : Type} (n : Nat) (hn : 0 < n) :
    ∀ (l : List α), (chunksOf n l).flatten = l
  | [] => by rw [chunksOf_nil]; rfl
  | x :: xs => by
    rw [chunksOf_cons n (x :: xs) hn (by simp), List.flatten_cons,
      chunksOf_flatten n hn ((x :: xs).drop n), List.take_append_drop]
termination_by l => l.length
decreasing_by simp [List.length_drop]; omega

theorem chunksOf_length {α : Type} (n : Nat) (l : List α) :
    (chunksOf n l).length = (l.length + n - 1) / n := by
  simp [chunksOf]

theorem take_range' : ∀ (n s m : Nat), (List.range' s m).take n = List.range' s (min n m) := by
  intro n
  induction n with
  | zero => intro s m; simp
  | succ k ih =>
    intro s m
    cases m with
    | zero => simp
    | succ m' =>
      rw [List.range'_succ, List.take_succ_cons, ih (s + 1) m',
        show min (k + 1) (m' + 1) = min k m' + 1 from by omega, List.range'_succ]

theorem drop_range' : ∀ (n s m : Nat), (List.range' s m).drop n = List.range' (s + n) (m - n) := by
  intro n
  induction n with
  | zero => intro s m; simp
  | succ k ih =>
    intro s m
    cases m with
    | zero => simp
    | succ m' =>
      rw [List.range'_succ, List.drop_succ_cons, ih (s + 1) m']
      congr 1 <;> omega

/-- The batch ranges produced by `get_all_data`'s loop are exactly the
chunks of the page list: iterating `start` over `range(s0, pages+1, bs)`
and taking pages `start..min(start+bs-1, pages)` partitions
`[s0, ..., pages]` into chunks of size `bs`. -/
theorem batches_eq_chunks (bs pages : Nat) (hbs : 0 < bs) :
    ∀ (s0 : Nat), 1 ≤ s0 →
    (pyRange s0 (pages + 1) bs).map
        (fun s => List.range' s (min (s + bs - 1) pages + 1 - s))
      = chunksOf bs (List.range' s0 (pages + 1 - s0))
  | s0 => fun hs0 => by
    rcases le_or_lt s0 pages with hle | hlt
    · rw [pyRange_cons s0 (pages + 1) bs hbs (by omega), List.map_cons,
        chunksOf_cons bs (List.range' s0 (pages + 1 - s0)) hbs
          (by
            intro hemp
            have hl := congrArg List.length hemp
            rw [List.length_range'] at hl
            simp at hl
            omega)]
      congr 1
      · rw [take_range']
        congr 1
        omega
      · rw [drop_range',
          show pages + 1 - s0 - bs = pages + 1 - (s0 + bs) from by omega]
        exact batches_eq_chunks bs pages hbs (s0 + bs) (by omega)
    · rw [pyRange_nil s0 (pages + 1) bs (by omega),
        show pages + 1 - s0 = 0 from by omega]
      rw [show List.range' s0 0 = [] from rfl, chunksOf_nil]
      rfl
termination_by s0 => pages + 1 - s0
decreasing_by omega

/-! ## Lemmas: the gather model -/

theorem lookupNat_gatherLog {α : Type} (order : List Nat) (task : Nat → α) (i : Nat)
    (h : i ∈ order) : lookupNat (gatherLog order task) i = some (task i) := by
  induction order with
  | nil => cases h
  | cons j rest ih =>
    show (if j = i then some (task j) else lookupNat (gatherLog rest task) i) = _
    by_cases hj : j = i
    · rw [if_pos hj, hj]
    · rw [if_neg hj]
      exact ih ((List.mem_cons.mp h).resolve_left (fun he => hj he.symm))

theorem mapM_option_eq (l : List Nat) (f : Nat → Option Cell) (v : Nat → Cell)
    (h : ∀ i ∈ l, f i = some (v i)) : l.mapM f = some (l.map v) := by
  induction l with
  | nil => rfl
  | cons a rest ih =>
    rw [List.mapM_cons, h a (List.mem_cons_self _ _),
      ih (fun i hi => h i (List.mem_cons_of_mem _ hi))]
    rfl

theorem findSome?_errOf_none (order : List Nat) (task : Nat → Except FetchErr Cell)
    {n : Nat} (horder : ∀ j, j ∈ order ↔ j < n)
    (hok : ∀ j, j < n → task j = Except.ok (okValD (task j))) :
    (gatherLog order task).findSome? errOf = Option.none := by
  rw [List.findSome?_eq_none_iff]
  intro p hp
  obtain ⟨i, hi, rfl⟩ := List.mem_map.mp hp
  show errOf (i, task i) = Option.none
  rw [show task i = Except.ok (okValD (task i)) from hok i ((horder i).mp hi)]
  rfl

theorem gatherE_ok (n : Nat) (order : List Nat) (task : Nat → Except FetchErr Cell)
    (horder : ∀ j, j ∈ order ↔ j < n)
    (hok : ∀ j, j < n → task j = Except.ok (okValD (task j))) :
    gatherE n order task = Except.ok ((List.range n).map (fun j => okValD (task j))) := by
  unfold gatherE
  rw [findSome?_errOf_none order task horder hok]
  rw [mapM_option_eq (List.range n) _ (fun j => okValD (task j)) (fun i hi => by
    unfold okLookup
    rw [lookupNat_gatherLog order task i ((horder i).mpr (List.mem_range.mp hi)),
      show task i = Except.ok (okValD (task i)) from hok i (List.mem_range.mp hi)])]

theorem gatherE_error (n : Nat) (order : List Nat) (task : Nat → Except FetchErr Cell)
    (i : Nat) (e : FetchErr) (hi : i ∈ order) (he : task i = Except.error e) :
    ∃ e', gatherE n order task = Except.error e' := by
  cases hfs : (gatherLog order task).findSome? errOf with
  | none =>
    exfalso
    have hmem := List.findSome?_eq_none_iff.mp hfs (i, task i)
      (List.mem_map.mpr ⟨i, hi, rfl⟩)
    rw [show errOf (i, task i) = some e from by rw [he]; rfl] at hmem
    exact Option.noConfusion hmem
  | some e' =>
    refine ⟨e', ?_⟩
    unfold gatherE
    rw [hfs]

theorem gatherE_ok_inv (n : Nat) (order : List Nat) (task : Nat → Except FetchErr Cell)
    (bs : List Cell) (horder : ∀ j, j ∈ order ↔ j < n)
    (h : gatherE n order task = Except.ok bs) :
    (∀ j, j < n → task j = Except.ok (okValD (task j)))
      ∧ bs = (List.range n).map (fun j => okValD (task j)) := by
  have hok : ∀ j, j < n → task j = Except.ok (okValD (task j)) := by
    intro j hj
    cases hfs : (gatherLog order task).findSome? errOf with
    | none =>
      have hmem := List.findSome?_eq_none_iff.mp hfs (j, task j)
        (List.mem_map.mpr ⟨j, (horder j).mpr hj, rfl⟩)
      cases htj : task j with
      | ok v => rfl
      | error e =>
        rw [show errOf (j, task j) = some e from by rw [htj]; rfl] at hmem
        exact Option.noConfusion hmem
    | some e' =>
      exfalso
      unfold gatherE at h
      rw [hfs] at h
      exact Except.noConfusion h
  refine ⟨hok, ?_⟩
  rw [gatherE_ok n order task horder hok] at h
  exact (Except.ok.inj h).symm

/-! ## Lemmas: one batch of `get_data_for_page_range` -/

theorem mapME_ok {α β : Type} (f : α → Except FetchErr β) (g : α → β) :
    ∀ (l : List α), (∀ x ∈ l, f x = Except.ok (g x)) → mapME f l = Except.ok (l.map g)
  | [], _ => rfl
  | a :: rest, h => by
    show (match f a with
          | Except.error e => Except.error e
          | Except.ok b =>
            match mapME f rest with
            | Except.error e => Except.error e
            | Except.ok bs => Except.ok (b :: bs)) = _
    rw [h a (List.mem_cons_self _ _),
      mapME_ok f g rest (fun x hx => h x (List.mem_cons_of_mem _ hx))]
    rfl

theorem mapME_map {α β γ : Type} (f : β → Except FetchErr γ) (v : α → β) :
    ∀ (l : List α), mapME f (l.map v) = mapME (fun a => f (v a)) l
  | [] => rfl
  | a :: rest => by
    show (match f (v a) with
          | Except.error e => Except.error e
          | Except.ok b =>
            match mapME f (rest.map v) with
            | Except.error e => Except.error e
            | Except.ok bs => Except.ok (b :: bs)) = _
    rw [mapME_map f v rest]
    rfl

theorem mapME_ok_inv {α β : Type} (f : α → Except FetchErr β) :
    ∀ (l : List α) (ys : List β), mapME f l = Except.ok ys →
    ∀ x ∈ l, ∃ y, f x = Except.ok y := by
  intro l
  induction l with
  | nil => intro ys _ x hx; cases hx
  | cons a rest ih =>
    intro ys h x hx
    cases hfa : f a with
    | error e =>
      exfalso
      unfold mapME at h
      rw [hfa] at h
      exact Except.noConfusion h
    | ok b =>
      rcases List.mem_cons.mp hx with hx | hx
      · exact ⟨b, hx ▸ hfa⟩
      · cases hrest : mapME f rest with
        | error e =>
          exfalso
          unfold mapME at h
          rw [hfa, hrest] at h
          exact Except.noConfusion h
        | ok bs => exact ih bs hrest x hx

theorem mapME_error_of_mem {α β : Type} (f : α → Except FetchErr β) :
    ∀ (l : List α) (x : α) (e : FetchErr), x ∈ l → f x = Except.error e →
    ∃ e', mapME f l = Except.error e' := by
  intro l
  induction l with
  | nil => intro x e hx; cases hx
  | cons a rest ih =>
    intro x e hx he
    cases hfa : f a with
    | error e2 =>
      refine ⟨e2, ?_⟩
      unfold mapME
      rw [hfa]
    | ok b =>
      rcases List.mem_cons.mp hx with hx | hx
      · exfalso
        subst hx
        rw [hfa] at he
        exact Except.noConfusion he
      · obtain ⟨e', he'⟩ := ih x e hx he
        refine ⟨e', ?_⟩
        unfold mapME
        rw [hfa, he']

theorem pageUrls_eq (url : String) (s e : Nat) :
    pageUrls url s e = (List.range' s (e + 1 - s)).map (fun i => url ++ toString i) := by
  unfold pageUrls
  rw [pyRange_one]

theorem pageUrls_length (url : String) (s e : Nat) :
    (pageUrls url s e).length = e + 1 - s := by
  rw [pageUrls_eq]
  simp [List.length_map, List.length_range']

theorem pageUrls_getD (url : String) (s e j : Nat) (hj : j < e + 1 - s) :
    (pageUrls url s e).getD j "" = url ++ toString (s + j) := by
  rw [pageUrls_eq, List.getD_eq_getElem?_getD, List.getElem?_map,
    List.getElem?_range' s 1 hj]
  simp

theorem gdfpr_trace {H : Type} (http : String → H → HttpResp)
    (url : String) (s e : Nat) (headers : H) (key : String) (order : List Nat) :
    (get_data_for_page_range http url s e headers key order).2
      = (List.range' s (e + 1 - s)).map (fun i => url ++ toString i) := by
  show pageUrls url s e = _
  exact pageUrls_eq url s e

theorem gdfpr_ok {H : Type} (http : String → H → HttpResp)
    (url : String) (headers : H) (key : String) (s e : Nat)
    (items : Nat → List Item) (order : List Nat)
    (horder : ∀ j, j ∈ order ↔ j < e + 1 - s)
    (hitems : ∀ i, s ≤ i → i ≤ e → pageItems http headers key url i = Except.ok (items i)) :
    (get_data_for_page_range http url s e headers key order).1
      = Except.ok (recordsToTable (((List.range' s (e + 1 - s)).map items).flatten)) := by
  have htask : ∀ j, j < e + 1 - s →
      get_data http ((pageUrls url s e).getD j "") headers
        = decodeResp (http (url ++ toString (s + j)) headers) := by
    intro j hj
    rw [pageUrls_getD url s e j hj]
    rfl
  have hok : ∀ j, j < e + 1 - s →
      get_data http ((pageUrls url s e).getD j "") headers
        = Except.ok (okValD (get_data http ((pageUrls url s e).getD j "") headers)) := by
    intro j hj
    have hp := hitems (s + j) (by omega) (by omega)
    unfold pageItems get_data at hp
    rw [htask j hj]
    cases hh : decodeResp (http (url ++ toString (s + j)) headers) with
    | ok v => rfl
    | error e2 =>
      exfalso
      rw [hh] at hp
      exact Except.noConfusion hp
  have hextract : ∀ j, j < e + 1 - s →
      extractItems key (okValD (get_data http ((pageUrls url s e).getD j "") headers))
        = Except.ok (items (s + j)) := by
    intro j hj
    have hp := hitems (s + j) (by omega) (by omega)
    unfold pageItems get_data at hp
    rw [htask j hj]
    cases hh : decodeResp (http (url ++ toString (s + j)) headers) with
    | ok v =>
      rw [hh] at hp
      exact hp
    | error e2 =>
      exfalso
      rw [hh] at hp
      exact Except.noConfusion hp
  show (match gatherE (pageUrls url s e).length order
      (fun j => get_data http ((pageUrls url s e).getD j "") headers) with
    | Except.error e => Except.error e
    | Except.ok bodies =>
      match mapME (extractItems key) bodies with
      | Except.error e => Except.error e
      | Except.ok itemss => Except.ok (recordsToTable itemss.flatten)) = _
  rw [pageUrls_length url s e,
    gatherE_ok (e + 1 - s) order _ horder hok]
  dsimp only
  rw [mapME_map (extractItems key) _ (List.range (e + 1 - s)),
    mapME_ok _ (fun j => items (s + j)) _ (fun j hj =>
      hextract j (List.mem_range.mp hj))]
  dsimp only
  congr 2
  rw [List.range'_eq_map_range, List.map_map]
  rfl

theorem gdfpr_ok_inv {H : Type} (http : String → H → HttpResp)
    (url : String) (headers : H) (key : String) (s e : Nat)
    (order : List Nat) (t : Table)
    (horder : ∀ j, j ∈ order ↔ j < e + 1 - s)
    (h : (get_data_for_page_range http url s e headers key order).1 = Except.ok t) :
    ∀ i, s ≤ i → i ≤ e → ∃ its, pageItems http headers key url i = Except.ok its := by
  intro i hsi hie
  revert h
  show (match gatherE (pageUrls url s e).length order
      (fun j => get_data http ((pageUrls url s e).getD j "") headers) with
    | Except.error e => Except.error e
    | Except.ok bodies =>
      match mapME (extractItems key) bodies with
      | Except.error e => Except.error e
      | Except.ok itemss => Except.ok (recordsToTable itemss.flatten)) = Except.ok t →
    ∃ its, pageItems http headers key url i = Except.ok its
  rw [pageUrls_length url s e]
  intro h
  cases hg : gatherE (e + 1 - s) order
      (fun j => get_data http ((pageUrls url s e).getD j "") headers) with
  | error e2 =>
    exfalso
    rw [hg] at h
    exact Except.noConfusion h
  | ok bodies =>
    rw [hg] at h
    obtain ⟨hok, hbodies⟩ := gatherE_ok_inv (e + 1 - s) order _ bodies horder hg
    have hj : i - s < e + 1 - s := by omega
    have htaski : get_data http ((pageUrls url s e).getD (i - s) "") headers
        = decodeResp (http (url ++ toString i) headers) := by
      rw [pageUrls_getD url s e (i - s) hj, show s + (i - s) = i from by omega]
      rfl
    cases hm : mapME (extractItems key) bodies with
    | error e2 =>
      exfalso
      have h3 : (match mapME (extractItems key) bodies with
        | Except.error e => (Except.error e : Except FetchErr Table)
        | Except.ok itemss => Except.ok (recordsToTable itemss.flatten)) = Except.ok t := h
      rw [hm] at h3
      exact Except.noConfusion h3
    | ok itemss =>
      have hmem : okValD (get_data http ((pageUrls url s e).getD (i - s) "") headers)
          ∈ bodies := by
        rw [hbodies]
        exact List.mem_map.mpr ⟨i - s, List.mem_range.mpr hj, rfl⟩
      obtain ⟨its, hits⟩ := mapME_ok_inv (extractItems key) bodies itemss hm _ hmem
      refine ⟨its, ?_⟩
      unfold pageItems get_data
      have hoki := hok (i - s) hj
      rw [htaski] at hoki hits
      rw [hoki]
      exact hits

/-! ## Lemmas: ordered key unions and table concatenation -/

theorem mem_insertKey (acc : List String) (k x : String) :
    x ∈ insertKey acc k ↔ x ∈ acc ∨ x = k := by
  unfold insertKey
  by_cases hk : k ∈ acc
  · rw [if_pos hk]
    exact ⟨Or.inl, fun h => h.elim id (fun he => he ▸ hk)⟩
  · rw [if_neg hk]
    simp

theorem mem_addKeys (ks : List String) : ∀ (acc : List String) (x : String),
    x ∈ addKeys acc ks ↔ x ∈ acc ∨ x ∈ ks := by
  induction ks with
  | nil => intro acc x; simp [addKeys]
  | cons k ks ih =>
    intro acc x
    show x ∈ addKeys (insertKey acc k) ks ↔ _
    rw [ih, mem_insertKey]
    simp [or_assoc]

theorem insertKey_addKeys (acc ks : List String) (k : String) :
    insertKey (addKeys acc ks) k = addKeys acc (insertKey ks k) := by
  by_cases hk : k ∈ ks
  · rw [show insertKey ks k = ks from by unfold insertKey; rw [if_pos hk]]
    unfold insertKey
    rw [if_pos ((mem_addKeys ks acc k).mpr (Or.inr hk))]
  · rw [show insertKey ks k = ks ++ [k] from by unfold insertKey; rw [if_neg hk]]
    unfold addKeys
    rw [List.foldl_append]
    rfl

theorem addKeys_assoc : ∀ (ks2 acc ks1 : List String),
    addKeys (addKeys acc ks1) ks2 = addKeys acc (addKeys ks1 ks2) := by
  intro ks2
  induction ks2 with
  | nil => intro acc ks1; rfl
  | cons k ks2 ih =>
    intro acc ks1
    show addKeys (insertKey (addKeys acc ks1) k) ks2 = _
    rw [insertKey_addKeys]
    exact ih acc (insertKey ks1 k)

theorem foldl_addKeys_shift : ∀ (b : List Item) (acc acc2 : List String),
    addKeys acc (b.foldl (fun a it => addKeys a (it.map Prod.fst)) acc2)
      = b.foldl (fun a it => addKeys a (it.map Prod.fst)) (addKeys acc acc2) := by
  intro b
  induction b with
  | nil => intro acc acc2; rfl
  | cons it b ih =>
    intro acc acc2
    show addKeys acc (b.foldl _ (addKeys acc2 (it.map Prod.fst))) = _
    rw [ih acc (addKeys acc2 (it.map Prod.fst)), ← addKeys_assoc]
    rfl

theorem concat_cols_gen : ∀ (ls : List (List Item)) (init : List String),
    (ls.map recordsToTable).foldl (fun acc t => addKeys acc t.cols) init
      = ls.foldl (fun acc b => b.foldl (fun a it => addKeys a (it.map Prod.fst)) acc) init := by
  intro ls
  induction ls with
  | nil => intro init; rfl
  | cons b ls ih =>
    intro init
    show (ls.map recordsToTable).foldl _ (addKeys init (unionKeys b)) = _
    rw [ih (addKeys init (unionKeys b)),
      show addKeys init (unionKeys b)
          = b.foldl (fun a it => addKeys a (it.map Prod.fst)) init from by
        rw [show unionKeys b
            = b.foldl (fun a it => addKeys a (it.map Prod.fst)) [] from rfl,
          foldl_addKeys_shift]
        rfl]
    rfl

theorem mem_foldl_addKeys (b : List Item) : ∀ (acc : List String) (c : String),
    c ∈ b.foldl (fun a it => addKeys a (it.map Prod.fst)) acc
      ↔ c ∈ acc ∨ ∃ it ∈ b, c ∈ it.map Prod.fst := by
  induction b with
  | nil => intro acc c; simp
  | cons it b ih =>
    intro acc c
    show c ∈ b.foldl _ (addKeys acc (it.map Prod.fst)) ↔ _
    rw [ih, mem_addKeys]
    constructor
    · rintro ((h | h) | ⟨it2, h2, h3⟩)
      · exact Or.inl h
      · exact Or.inr ⟨it, List.mem_cons_self _ _, h⟩
      · exact Or.inr ⟨it2, List.mem_cons_of_mem _ h2, h3⟩
    · rintro (h | ⟨it2, h2, h3⟩)
      · exact Or.inl (Or.inl h)
      · rcases List.mem_cons.mp h2 with h2 | h2
        · exact Or.inl (Or.inr (h2 ▸ h3))
        · exact Or.inr ⟨it2, h2, h3⟩

theorem lookupKV_some_mem_fst : ∀ (it : Item) (c : String) (v : Cell),
    lookupKV it c = some v → c ∈ it.map Prod.fst := by
  intro it
  induction it with
  | nil => intro c v h; cases h
  | cons p rest ih =>
    intro c v h
    obtain ⟨k, w⟩ := p
    by_cases hk : k = c
    · exact List.mem_cons.mpr (Or.inl hk.symm)
    · rw [show lookupKV ((k, w) :: rest) c = lookupKV rest c from by
        show (if k = c then some w else lookupKV rest c) = _
        rw [if_neg hk]] at h
      exact List.mem_cons.mpr (Or.inr (ih c v h))

theorem lookupKV_zip_self_map (cs : List String) (f : String → Cell) (c : String) :
    lookupKV (cs.zip (cs.map f)) c = if c ∈ cs then some (f c) else Option.none := by
  induction cs with
  | nil => rfl
  | cons k ks ih =>
    rw [List.map_cons, List.zip_cons_cons]
    show (if k = c then some (f k) else lookupKV (ks.zip (ks.map f)) c) = _
    by_cases hk : k = c
    · rw [if_pos hk, if_pos (List.mem_cons.mpr (Or.inl hk.symm)), hk]
    · rw [if_neg hk, ih]
      by_cases hc : c ∈ ks
      · rw [if_pos hc, if_pos (List.mem_cons_of_mem _ hc)]
      · rw [if_neg hc, if_neg (fun hm => (List.mem_cons.mp hm).elim
          (fun he => hk he.symm) hc)]

theorem concat_rows_gen (A : List String) : ∀ (ls : List (List Item)),
    (ls.map recordsToTable).flatMap (fun u => u.rows.map (fun r =>
        A.map (fun c => (lookupKV (u.cols.zip r) c).getD Cell.none)))
      = ls.flatten.map (fun it => A.map (fun c => (lookupKV it c).getD Cell.none)) := by
  intro ls
  induction ls with
  | nil => rfl
  | cons b ls ih =>
    rw [List.map_cons, List.flatMap_cons, ih, List.flatten_cons, List.map_append]
    congr 1
    dsimp only [recordsToTable]
    rw [List.map_map]
    refine List.map_congr_left (fun it hit => ?_)
    simp only [Function.comp]
    refine List.map_congr_left (fun c _ => ?_)
    rw [lookupKV_zip_self_map (unionKeys b) _ c]
    by_cases hc : c ∈ unionKeys b
    · rw [if_pos hc]
      rfl
    · rw [if_neg hc]
      cases hlk : lookupKV it c with
      | none => rfl
      | some v =>
        exact absurd ((mem_foldl_addKeys b [] c).mpr
          (Or.inr ⟨it, hit, lookupKV_some_mem_fst it c v hlk⟩)) hc

/-- `pd.concat` of the per-batch `pd.DataFrame(list-of-dicts)` tables equals
one `pd.DataFrame` of all the records in order: the outer-join column union
in first-seen order agrees, and every reindexed row agrees (missing labels
fill with NaN on both sides). -/
theorem concatTables_records : ∀ (ls : List (List Item)), ls ≠ [] →
    concatTables (ls.map recordsToTable) = Except.ok (recordsToTable ls.flatten) := by
  intro ls hne
  have hcols : (ls.map recordsToTable).foldl (fun acc t => addKeys acc t.cols) []
      = unionKeys ls.flatten := by
    rw [concat_cols_gen ls []]
    rw [show unionKeys ls.flatten
        = ls.flatten.foldl (fun a it => addKeys a (it.map Prod.fst)) [] from rfl]
    rw [List.foldl_flatten]
  cases ls with
  | nil => exact absurd rfl hne
  | cons b ls' =>
    have hunfold : concatTables ((b :: ls').map recordsToTable) = Except.ok
        { cols := ((b :: ls').map recordsToTable).foldl (fun acc u => addKeys acc u.cols) []
          rows := ((b :: ls').map recordsToTable).flatMap (fun u => u.rows.map (fun r =>
            (((b :: ls').map recordsToTable).foldl (fun acc u => addKeys acc u.cols) []).map
              (fun c => (lookupKV (u.cols.zip r) c).getD Cell.none))) } := rfl
    rw [hunfold, hcols]
    show Except.ok (Table.mk (unionKeys (b :: ls').flatten)
        (((b :: ls').map recordsToTable).flatMap (fun u => u.rows.map (fun r =>
          (unionKeys (b :: ls').flatten).map
            (fun c => (lookupKV (u.cols.zip r) c).getD Cell.none)))))
      = Except.ok (Table.mk (unionKeys (b :: ls').flatten)
        ((b :: ls').flatten.map (fun it =>
          (unionKeys (b :: ls').flatten).map
            (fun c => (lookupKV it c).getD Cell.none))))
    rw [concat_rows_gen (unionKeys (b :: ls').flatten) (b :: ls')]

/-! ## Lemmas: the sequential batch loop -/

theorem runBatches_ok {H : Type} (http : String → H → HttpResp)
    (url : String) (headers : H) (pages : Nat) (key : String) (bs : Nat)
    (sched : Nat → List Nat) (items : Nat → List Item)
    (hitems : ∀ i, 1 ≤ i → i ≤ pages → pageItems http headers key url i = Except.ok (items i)) :
    ∀ (starts : List Nat),
    (∀ s ∈ starts, 1 ≤ s ∧ s ≤ pages) →
    (∀ s ∈ starts, ∀ j, j ∈ sched s ↔ j < min (s + bs - 1) pages + 1 - s) →
    runBatches http url headers pages key bs sched starts
      = (Except.ok (starts.map (fun s =>
            recordsToTable
              (((List.range' s (min (s + bs - 1) pages + 1 - s)).map items).flatten))),
         starts.map (fun s =>
            (List.range' s (min (s + bs - 1) pages + 1 - s)).map
              (fun i => url ++ toString i))) := by
  intro starts
  induction starts with
  | nil => intro _ _; rfl
  | cons s rest ih =>
    intro hstarts hsched
    have hs := hstarts s (List.mem_cons_self _ _)
    have hbatch := gdfpr_ok http url headers key s (min (s + bs - 1) pages) items (sched s)
      (hsched s (List.mem_cons_self _ _))
      (fun i hi1 hi2 => hitems i (by omega) (by omega))
    show (match (get_data_for_page_range http url s (min (s + bs - 1) pages)
        headers key (sched s)).1 with
      | Except.error err =>
        (Except.error err,
         [(get_data_for_page_range http url s (min (s + bs - 1) pages)
            headers key (sched s)).2])
      | Except.ok t =>
        (match (runBatches http url headers pages key bs sched rest).1 with
         | Except.ok ts => Except.ok (t :: ts)
         | Except.error er => Except.error er,
         (get_data_for_page_range http url s (min (s + bs - 1) pages)
            headers key (sched s)).2
           :: (runBatches http url headers pages key bs sched rest).2)) = _
    rw [hbatch]
    dsimp only
    rw [ih (fun x hx => hstarts x (List.mem_cons_of_mem _ hx))
      (fun x hx => hsched x (List.mem_cons_of_mem _ hx))]
    dsimp only
    rw [gdfpr_trace http url s (min (s + bs - 1) pages) headers key (sched s)]
    rfl

/-! ## Claim theorems (easy evaluations) -/

/-- C3: the claim asserts that every named column is removed and replaced by
its flattened sibling columns, also when two or more columns are flattened
in one call.  The code violates this: each loop iteration rebuilds
`flat_df` as `pd.concat([df, flattened_df])` from the original (mutated)
`df`, not from the previous `flat_df`, so only the last named column is
removed and only its siblings survive.  Evaluation at the failing input:
flattening both columns of a table with columns `c1`, `c2` and one row
`[{"a": 1}, {"b": 2}]` returns a table that still contains `c1` (with its
normalized dict value), lacks `c1_a` entirely, and only removed/expanded
`c2`. -/
theorem C3_flatten_removes_and_appends :
    flatten_columns
      ⟨["c1", "c2"], [[Cell.dict [("a", Cell.int 1)], Cell.dict [("b", Cell.int 2)]]]⟩
      ["c1", "c2"]
    = Except.ok ⟨["c1", "c2_b"], [[Cell.dict [("a", Cell.int 1)], Cell.int 2]]⟩ := rfl

/-- C4: the claim asserts row-count preservation for every list of existing
columns *including the empty list*.  The code violates the empty-list case:
with `nested_columns = []` the loop body never runs, `flat_df` is never
assigned, and `return flat_df` raises `UnboundLocalError` instead of
returning a table.  Evaluation at the failing input. -/
theorem C4_flatten_empty_list_unbound :
    flatten_columns ⟨["a"], [[Cell.int 1]]⟩ [] = Except.error FlatErr.unboundLocal := rfl

/-- C5: `flatten_columns` normalizes each row's value of the named column —
a scalar or sequence `v` becomes `{"value": v}` and so yields the single
sibling column `col_value` holding `v`; a null value becomes `{}` and
contributes no key; a mapping is expanded into sibling columns named
`col_<key>` — and in particular a column `col` with rows
`[{"x": 1}, {"x": 2}, None]` flattens to the column `col_x` with values
`[1, 2, None]`. -/
theorem C5_flatten_normalizes_and_expands :
    (∀ v : Cell, isPyScalarOrSeq v = true →
      flatten_columns ⟨["col"], [[v]]⟩ ["col"]
        = Except.ok ⟨["col_value"], [[v]]⟩)
    ∧ flatten_columns ⟨["col"], [[Cell.none]]⟩ ["col"] = Except.ok ⟨[], [[]]⟩
    ∧ flatten_columns
        ⟨["col"], [[Cell.dict [("x", Cell.int 1)]], [Cell.dict [("x", Cell.int 2)]], [Cell.none]]⟩
        ["col"]
      = Except.ok ⟨["col_x"], [[Cell.int 1], [Cell.int 2], [Cell.none]]⟩ := by
  refine ⟨fun v hv => ?_, rfl, rfl⟩
  cases v with
  | int n => rfl
  | str s => rfl
  | bool b => rfl
  | list xs => rfl
  | none => exact nomatch hv
  | dict kvs => exact nomatch hv

/-- C5 witness: the scalar conjunct applied at the concrete value `7`. -/
theorem C5_flatten_normalizes_and_expands_witness :
    isPyScalarOrSeq (Cell.int 7) = true
    ∧ flatten_columns ⟨["col"], [[Cell.int 7]]⟩ ["col"]
        = Except.ok ⟨["col_value"], [[Cell.int 7]]⟩ :=
  ⟨rfl, C5_flatten_normalizes_and_expands.1 (Cell.int 7) rfl⟩

/-- C7 counterexample: the claim asserts that flattening a column name that
is not in the table signals `ColumnNotFoundError`.  The code has no such
error: at the concrete input (a one-column table `["a"]` and the absent
name `"missing"`) it fails with the pandas `KeyError` raised by
`df["missing"]`, not with a column-not-found error. -/
theorem C7_counterexample :
    flatten_columns ⟨["a"], [[Cell.int 1]]⟩ ["missing"]
      ≠ Except.error (FlatErr.columnNotFound "missing") := by
  intro h
  rw [show flatten_columns ⟨["a"], [[Cell.int 1]]⟩ ["missing"]
        = Except.error (FlatErr.keyError "missing") from rfl] at h
  simp at h

/-- C7 (amended): for every table and every column name not present in it,
`flatten_columns` called with that name (all earlier names in the list
being present) fails with the pandas `KeyError` naming the missing column,
raised by the in-place assignment `df[column] = df[column].apply(...)`; the
name is not silently ignored, but no dedicated `ColumnNotFoundError` is
signalled. -/
theorem C7_missing_column_keyerror (df : Table) (pre post : List String) (name : String)
    (hpre : ∀ c ∈ pre, c ∈ df.cols) (hname : name ∉ df.cols) :
    flatten_columns df (pre ++ name :: post) = Except.error (FlatErr.keyError name) := by
  unfold flatten_columns
  rw [flattenLoop_missing pre df Option.none name post hpre hname]

/-- C7 witness: the amended theorem at a concrete table and missing name. -/
theorem C7_missing_column_keyerror_witness :
    (∀ c ∈ ["a"], c ∈ (⟨["a", "b"], [[Cell.int 1, Cell.int 2]]⟩ : Table).cols)
    ∧ "zz" ∉ (⟨["a", "b"], [[Cell.int 1, Cell.int 2]]⟩ : Table).cols
    ∧ flatten_columns (⟨["a", "b"], [[Cell.int 1, Cell.int 2]]⟩ : Table) (["a"] ++ "zz" :: ["b"])
        = Except.error (FlatErr.keyError "zz") :=
  ⟨by decide, by decide,
   C7_missing_column_keyerror ⟨["a", "b"], [[Cell.int 1, Cell.int 2]]⟩ ["a"] ["b"] "zz"
     (by decide) (by decide)⟩

/-- C10: `flatten_columns` mutates its caller's table — the in-place
assignments overwrite every cell of every named column with its normalized
value (`{"value": v}` for scalars and sequences, `{}` for None, dicts
unchanged) before the new table is built, so after the call the caller's
frame no longer holds the original values of the named columns.
`flatten_mutated` is the post-call state of the `df` argument. -/
theorem C10_flatten_mutates_input (df : Table) (cs : List String)
    (hWF : df.WF) (hcs : ∀ c ∈ cs, c ∈ df.cols) :
    ∃ M, flatten_mutated df cs = Except.ok M
      ∧ M.cols = df.cols
      ∧ (∀ c ∈ cs, getCol M c = (getCol df c).map (List.map normalizeCell)) := by
  refine ⟨mutAll df cs, flatten_mutated_eq df cs hcs, mutAll_cols df cs, ?_⟩
  intro c hc
  exact getCol_mutAll_mem df cs c hWF hc

/-- C10 witness: the caller's one-column table `[[5]]` is left holding
`{"value": 5}` after flattening column `a`. -/
theorem C10_flatten_mutates_input_witness :
    (⟨["a"], [[Cell.int 5]]⟩ : Table).WF
    ∧ (∀ c ∈ ["a"], c ∈ (⟨["a"], [[Cell.int 5]]⟩ : Table).cols)
    ∧ ∃ M, flatten_mutated (⟨["a"], [[Cell.int 5]]⟩ : Table) ["a"] = Except.ok M
        ∧ M.cols = ["a"]
        ∧ (∀ c ∈ ["a"], getCol M c
            = (getCol (⟨["a"], [[Cell.int 5]]⟩ : Table) c).map (List.map normalizeCell)) :=
  ⟨fun r hr => by simpa using congrArg List.length (List.mem_singleton.mp hr),
   by decide,
   C10_flatten_mutates_input ⟨["a"], [[Cell.int 5]]⟩ ["a"]
     (fun r hr => by simpa using congrArg List.length (List.mem_singleton.mp hr))
     (by decide)⟩

/-- C6 counterexample: the claim quantifies over *every* list of named
columns, but for the empty list `flatten_columns` returns no table at all
(`UnboundLocalError`, see C4), so the untargeted columns of this concrete
two-column table are not preserved in any output. -/
theorem C6_counterexample :
    ¬ ∃ t, flatten_columns ⟨["x", "y"], [[Cell.int 1, Cell.int 2]]⟩ [] = Except.ok t := by
  intro h
  obtain ⟨t, ht⟩ := h
  rw [show flatten_columns ⟨["x", "y"], [[Cell.int 1, Cell.int 2]]⟩ []
        = Except.error FlatErr.unboundLocal from rfl] at ht
  exact Except.noConfusion ht

/-- C6 (amended): for every well-formed table and every *nonempty* list of
named columns all present in the table, the columns not named in the list
are identical in the output of `flatten_columns`: same values, same row
alignment. -/
theorem C6_flatten_preserves_unnamed (df : Table) (cs : List String)
    (hWF : df.WF) (hne : cs ≠ []) (hcs : ∀ c ∈ cs, c ∈ df.cols) :
    ∃ t, flatten_columns df cs = Except.ok t
      ∧ ∀ name ∈ df.cols, name ∉ cs → getCol t name = getCol df name := by
  obtain ⟨cl, hcl, heq⟩ := flatten_columns_eq df cs hcs hne
  refine ⟨flatTab (mutAll df cs) cl, heq, fun name hname hnotin => ?_⟩
  have hnecl : name ≠ cl := fun h => hnotin (h ▸ hcl)
  rw [getCol_flatTab_ne (mutAll df cs) cl name (mutAll_WF df cs hWF)
    (by rw [mutAll_cols]; exact hname) hnecl]
  exact getCol_mutAll_not_mem df cs name hnotin

/-- C6 witness: flattening column `a` of a two-column table leaves column
`b` untouched. -/
theorem C6_flatten_preserves_unnamed_witness :
    (⟨["a", "b"], [[Cell.int 1, Cell.str "u"]]⟩ : Table).WF
    ∧ (["a"] : List String) ≠ []
    ∧ (∀ c ∈ ["a"], c ∈ (⟨["a", "b"], [[Cell.int 1, Cell.str "u"]]⟩ : Table).cols)
    ∧ ∃ t, flatten_columns (⟨["a", "b"], [[Cell.int 1, Cell.str "u"]]⟩ : Table) ["a"]
          = Except.ok t
        ∧ ∀ name ∈ (⟨["a", "b"], [[Cell.int 1, Cell.str "u"]]⟩ : Table).cols,
            name ∉ (["a"] : List String) →
            getCol t name = getCol (⟨["a", "b"], [[Cell.int 1, Cell.str "u"]]⟩ : Table) name :=
  ⟨fun r hr => by simpa using congrArg List.length (List.mem_singleton.mp hr),
   by decide, by decide,
   C6_flatten_preserves_unnamed ⟨["a", "b"], [[Cell.int 1, Cell.str "u"]]⟩ ["a"]
     (fun r hr => by simpa using congrArg List.length (List.mem_singleton.mp hr))
     (by decide) (by decide)⟩

/-- C1: for every `total_pages ≥ 0` and `batch_size ≥ 1`, a run of
`get_all_data` in which every page succeeds issues exactly `total_pages`
page requests — page `i`'s URL being the url prefix concatenated with the
1-based page number `i` — partitioned into `ceil(total_pages / batch_size)`
strictly sequential batches of contiguous pages (the chunks of
`[1..total_pages]` of size `batch_size`, the last possibly shorter).  At
`total_pages = 25, batch_size = 10` this evaluates to the three batches
`[1–10], [11–20], [21–25]`, and at `total_pages = 0` to zero requests (see
the witness). -/
theorem C1_batch_partition {H : Type} (http : String → H → HttpResp)
    (url : String) (headers : H) (pages batch_size : Nat) (key : String)
    (sched : Nat → List Nat) (items : Nat → List Item)
    (hbs : 1 ≤ batch_size)
    (hitems : ∀ i, 1 ≤ i → i ≤ pages → pageItems http headers key url i = Except.ok (items i))
    (hsched : ∀ s ∈ pyRange 1 (pages + 1) batch_size,
      ∀ j, j ∈ sched s ↔ j < min (s + batch_size - 1) pages + 1 - s) :
    (get_all_data http url headers pages key batch_size sched).2
        = (chunksOf batch_size (List.range' 1 pages)).map
            (List.map (fun i => url ++ toString i))
    ∧ ((get_all_data http url headers pages key batch_size sched).2).flatten
        = (List.range' 1 pages).map (fun i => url ++ toString i)
    ∧ ((get_all_data http url headers pages key batch_size sched).2).length
        = (pages + batch_size - 1) / batch_size := by
  have hstarts : ∀ s ∈ pyRange 1 (pages + 1) batch_size, 1 ≤ s ∧ s ≤ pages := by
    intro s hsm
    have hb := mem_pyRange_bounds 1 (pages + 1) batch_size s (by omega) hsm
    omega
  have hrB := runBatches_ok http url headers pages key batch_size sched items hitems
    (pyRange 1 (pages + 1) batch_size) hstarts hsched
  have hbridge := batches_eq_chunks batch_size pages (by omega) 1 (le_refl 1)
  rw [show pages + 1 - 1 = pages from by omega] at hbridge
  have h1 : (get_all_data http url headers pages key batch_size sched).2
      = (chunksOf batch_size (List.range' 1 pages)).map
          (List.map (fun i => url ++ toString i)) := by
    show (runBatches http url headers pages key batch_size sched
        (pyRange 1 (pages + 1) batch_size)).2 = _
    rw [hrB, ← hbridge, List.map_map]
    rfl
  refine ⟨h1, ?_, ?_⟩
  · rw [h1, ← List.map_flatten, chunksOf_flatten batch_size (by omega)]
  · rw [h1, List.length_map, chunksOf_length, List.length_range']

/-- C1 witness: the theorem applied at `total_pages = 25, batch_size = 10`
(three batches: pages 1–10, 11–20, 21–25) and at `total_pages = 0` (zero
requests), with an HTTP collaborator on which every page succeeds with an
empty record array and the identity completion order. -/
theorem C1_batch_partition_witness :
    (get_all_data (fun _ _ => HttpResp.response 200 (Except.ok (Cell.dict [("k", Cell.list [])])))
        "u" () 25 "k" 10 (fun s => List.range (min (s + 10 - 1) 25 + 1 - s))).2
      = (chunksOf 10 (List.range' 1 25)).map (List.map (fun i => "u" ++ toString i))
    ∧ chunksOf 10 (List.range' 1 25)
      = [List.range' 1 10, List.range' 11 10, List.range' 21 5]
    ∧ ((get_all_data (fun _ _ => HttpResp.response 200 (Except.ok (Cell.dict [("k", Cell.list [])])))
        "u" () 25 "k" 10 (fun s => List.range (min (s + 10 - 1) 25 + 1 - s))).2).length = 3
    ∧ (get_all_data (fun _ _ => HttpResp.response 200 (Except.ok (Cell.dict [("k", Cell.list [])])))
        "u" () 0 "k" 10 (fun s => List.range (min (s + 10 - 1) 0 + 1 - s))).2 = [] := by
  refine ⟨(C1_batch_partition (fun _ _ => HttpResp.response 200 (Except.ok (Cell.dict [("k", Cell.list [])])))
      "u" () 25 10 "k" (fun s => List.range (min (s + 10 - 1) 25 + 1 - s)) (fun _ => [])
      (by omega) (fun i _ _ => rfl) (fun s _ j => List.mem_range)).1,
    by decide, ?_, ?_⟩
  · rw [(C1_batch_partition (fun _ _ => HttpResp.response 200 (Except.ok (Cell.dict [("k", Cell.list [])])))
      "u" () 25 10 "k" (fun s => List.range (min (s + 10 - 1) 25 + 1 - s)) (fun _ => [])
      (by omega) (fun i _ _ => rfl) (fun s _ j => List.mem_range)).2.2]
  · rw [(C1_batch_partition (fun _ _ => HttpResp.response 200 (Except.ok (Cell.dict [("k", Cell.list [])])))
      "u" () 0 10 "k" (fun s => List.range (min (s + 10 - 1) 0 + 1 - s)) (fun _ => [])
      (by omega) (fun i hi1 hi2 => absurd (le_trans hi1 hi2) (by omega))
      (fun s _ j => List.mem_range)).1]
    rfl

/-- C2: for every `total_pages ≥ 1` and `batch_size ≥ 1`, when every page
succeeds the batched concurrent fetch returns exactly the table of the
sequential reference fetch of pages `1..total_pages` in order — one row
per array element, rows in page-number order with each page's elements in
array order — for *every* completion order of the concurrent requests
within each batch (the `sched` argument ranges over all covers of the
batch's task indices), because gather reassembles results in task order
and `pd.concat` stacks the per-batch frames in request order. -/
theorem C2_row_order_refinement {H : Type} (http : String → H → HttpResp)
    (url : String) (headers : H) (pages batch_size : Nat) (key : String)
    (sched : Nat → List Nat) (items : Nat → List Item)
    (hp : 1 ≤ pages) (hbs : 1 ≤ batch_size)
    (hitems : ∀ i, 1 ≤ i → i ≤ pages → pageItems http headers key url i = Except.ok (items i))
    (hsched : ∀ s ∈ pyRange 1 (pages + 1) batch_size,
      ∀ j, j ∈ sched s ↔ j < min (s + batch_size - 1) pages + 1 - s) :
    (get_all_data http url headers pages key batch_size sched).1
        = sequential_reference_fetch http url headers pages key
    ∧ (get_all_data http url headers pages key batch_size sched).1
        = Except.ok (recordsToTable (((List.range' 1 pages).map items).flatten)) := by
  have hstarts : ∀ s ∈ pyRange 1 (pages + 1) batch_size, 1 ≤ s ∧ s ≤ pages := by
    intro s hsm
    have hb := mem_pyRange_bounds 1 (pages + 1) batch_size s (by omega) hsm
    omega
  have hrB := runBatches_ok http url headers pages key batch_size sched items hitems
    (pyRange 1 (pages + 1) batch_size) hstarts hsched
  have hbridge := batches_eq_chunks batch_size pages (by omega) 1 (le_refl 1)
  rw [show pages + 1 - 1 = pages from by omega] at hbridge
  have hne : pyRange 1 (pages + 1) batch_size ≠ [] := by
    rw [pyRange_cons 1 (pages + 1) batch_size (by omega) (by omega)]
    exact List.cons_ne_nil _ _
  have hmain : (get_all_data http url headers pages key batch_size sched).1
      = Except.ok (recordsToTable (((List.range' 1 pages).map items).flatten)) := by
    show (match (runBatches http url headers pages key batch_size sched
        (pyRange 1 (pages + 1) batch_size)).1 with
      | Except.error e => Except.error e
      | Except.ok dfs => concatTables dfs) = _
    rw [hrB]
    dsimp only
    rw [show (pyRange 1 (pages + 1) batch_size).map (fun s =>
          recordsToTable
            (((List.range' s (min (s + batch_size - 1) pages + 1 - s)).map items).flatten))
        = ((pyRange 1 (pages + 1) batch_size).map (fun s =>
            ((List.range' s (min (s + batch_size - 1) pages + 1 - s)).map items).flatten)).map
            recordsToTable from by
      rw [List.map_map]
      rfl]
    rw [concatTables_records _ (by
      rw [Ne, List.map_eq_nil_iff]
      exact hne)]
    congr 2
    rw [show (pyRange 1 (pages + 1) batch_size).map (fun s =>
          ((List.range' s (min (s + batch_size - 1) pages + 1 - s)).map items).flatten)
        = (((pyRange 1 (pages + 1) batch_size).map (fun s =>
            (List.range' s (min (s + batch_size - 1) pages + 1 - s)).map items)).map
            List.flatten) from by
      rw [List.map_map]
      rfl]
    rw [← List.flatten_flatten]
    rw [show (pyRange 1 (pages + 1) batch_size).map (fun s =>
          (List.range' s (min (s + batch_size - 1) pages + 1 - s)).map items)
        = ((pyRange 1 (pages + 1) batch_size).map (fun s =>
            List.range' s (min (s + batch_size - 1) pages + 1 - s))).map
            (List.map items) from by
      rw [List.map_map]
      rfl]
    rw [hbridge, ← List.map_flatten, chunksOf_flatten batch_size (by omega)]
  refine ⟨?_, hmain⟩
  rw [hmain]
  unfold sequential_reference_fetch
  rw [mapME_ok (pageItems http headers key url) items (List.range' 1 pages) (fun i hi => by
    have hb := List.mem_range'_1.mp hi
    exact hitems i (by omega) (by omega))]

/-- C2 witness: three pages fetched with `batch_size = 2`, pages completing
out of order inside each batch (completion orders `[1, 0]` then `[0]`), a
third page whose records have a different key to exercise the outer-join
column union; the result equals the sequential reference fetch, with rows
in page order 1, 2, 3. -/
theorem C2_row_order_refinement_witness :
    (get_all_data
        (fun u _ =>
          if u = "p3" then
            HttpResp.response 200 (Except.ok (Cell.dict [("k", Cell.list
              [Cell.dict [("n", Cell.int 3)], Cell.dict [("m", Cell.int 30)]])]))
          else HttpResp.response 200
            (Except.ok (Cell.dict [("k", Cell.list [Cell.dict [("n", Cell.str u)]])])))
        "p" () 3 "k" 2 (fun s => if s = 1 then [1, 0] else [0])).1
      = sequential_reference_fetch
          (fun u _ =>
            if u = "p3" then
              HttpResp.response 200 (Except.ok (Cell.dict [("k", Cell.list
                [Cell.dict [("n", Cell.int 3)], Cell.dict [("m", Cell.int 30)]])]))
            else HttpResp.response 200
              (Except.ok (Cell.dict [("k", Cell.list [Cell.dict [("n", Cell.str u)]])])))
          "p" () 3 "k"
    ∧ (get_all_data
        (fun u _ =>
          if u = "p3" then
            HttpResp.response 200 (Except.ok (Cell.dict [("k", Cell.list
              [Cell.dict [("n", Cell.int 3)], Cell.dict [("m", Cell.int 30)]])]))
          else HttpResp.response 200
            (Except.ok (Cell.dict [("k", Cell.list [Cell.dict [("n", Cell.str u)]])])))
        "p" () 3 "k" 2 (fun s => if s = 1 then [1, 0] else [0])).1
      = Except.ok ⟨["n", "m"],
          [[Cell.str "p1", Cell.none], [Cell.str "p2", Cell.none],
           [Cell.int 3, Cell.none], [Cell.none, Cell.int 30]]⟩ := by
  refine ⟨(C2_row_order_refinement
      (fun u _ =>
        if u = "p3" then
          HttpResp.response 200 (Except.ok (Cell.dict [("k", Cell.list
            [Cell.dict [("n", Cell.int 3)], Cell.dict [("m", Cell.int 30)]])]))
        else HttpResp.response 200
          (Except.ok (Cell.dict [("k", Cell.list [Cell.dict [("n", Cell.str u)]])])))
      "p" () 3 2 "k" (fun s => if s = 1 then [1, 0] else [0])
      (fun i =>
        if i = 3 then [[("n", Cell.int 3)], [("m", Cell.int 30)]]
        else [[("n", Cell.str ("p" ++ toString i))]])
      (by omega) (by omega)
      (fun i h1 h2 => by interval_cases i <;> rfl)
      (fun s hs j => by
        rw [show pyRange 1 4 2 = [1, 3] from rfl] at hs
        rcases List.mem_cons.mp hs with h | h
        · subst h
          show j ∈ [1, 0] ↔ _
          simp only [List.mem_cons, List.not_mem_nil, or_false]
          omega
        · rcases List.mem_cons.mp h with h | h
          · subst h
            show j ∈ [0] ↔ _
            simp only [List.mem_cons, List.not_mem_nil, or_false]
            omega
          · cases h)).1, rfl⟩

theorem runBatches_ok_inv {H : Type} (http : String → H → HttpResp)
    (url : String) (headers : H) (pages : Nat) (key : String) (bs : Nat)
    (sched : Nat → List Nat) :
    ∀ (starts : List Nat) (ts : List Table),
    (runBatches http url headers pages key bs sched starts).1 = Except.ok ts →
    ∀ s ∈ starts, ∃ t,
      (get_data_for_page_range http url s (min (s + bs - 1) pages)
        headers key (sched s)).1 = Except.ok t := by
  intro starts
  induction starts with
  | nil => intro ts _ s hs; cases hs
  | cons s0 rest ih =>
    intro ts h s hs
    cases hg : (get_data_for_page_range http url s0 (min (s0 + bs - 1) pages)
        headers key (sched s0)).1 with
    | error err =>
      exfalso
      have h1 : (runBatches http url headers pages key bs sched (s0 :: rest)).1
          = Except.error err := by
        show (match (get_data_for_page_range http url s0 (min (s0 + bs - 1) pages)
            headers key (sched s0)).1 with
          | Except.error err =>
            (Except.error err,
             [(get_data_for_page_range http url s0 (min (s0 + bs - 1) pages)
                headers key (sched s0)).2])
          | Except.ok t =>
            (match (runBatches http url headers pages key bs sched rest).1 with
             | Except.ok ts => Except.ok (t :: ts)
             | Except.error er => Except.error er,
             (get_data_for_page_range http url s0 (min (s0 + bs - 1) pages)
                headers key (sched s0)).2
               :: (runBatches http url headers pages key bs sched rest).2)).1 = _
        rw [hg]
      rw [h1] at h
      exact Except.noConfusion h
    | ok t0 =>
      have h1 : (runBatches http url headers pages key bs sched (s0 :: rest)).1
          = match (runBatches http url headers pages key bs sched rest).1 with
            | Except.ok ts => Except.ok (t0 :: ts)
            | Except.error er => Except.error er := by
        show (match (get_data_for_page_range http url s0 (min (s0 + bs - 1) pages)
            headers key (sched s0)).1 with
          | Except.error err =>
            (Except.error err,
             [(get_data_for_page_range http url s0 (min (s0 + bs - 1) pages)
                headers key (sched s0)).2])
          | Except.ok t =>
            (match (runBatches http url headers pages key bs sched rest).1 with
             | Except.ok ts => Except.ok (t :: ts)
             | Except.error er => Except.error er,
             (get_data_for_page_range http url s0 (min (s0 + bs - 1) pages)
                headers key (sched s0)).2
               :: (runBatches http url headers pages key bs sched rest).2)).1 = _
        rw [hg]
      rcases List.mem_cons.mp hs with hseq | hsrest
      · exact ⟨t0, hseq ▸ hg⟩
      · cases hr : (runBatches http url headers pages key bs sched rest).1 with
        | error er =>
          exfalso
          rw [h1, hr] at h
          exact Except.noConfusion h
        | ok ts' => exact ih ts' hr s hsrest

/-- C8 counterexample: the claim lists a non-2xx status among the page
failures that abort the whole fetch, but `get_data` (asyncs.py lines 9–23)
never calls `raise_for_status` and `aiohttp.ClientSession` does not raise
on status by default.  At this concrete input, page 2 is answered with
status 500 and a JSON body containing the array at `"k"`: instead of the
batch failing and the fetch aborting, the run completes and returns the
full two-row table — the 500 page's records included — so the claim as
stated is false. -/
theorem C8_counterexample :
    (get_all_data
        (fun u _ => if u = "p2"
          then HttpResp.response 500
            (Except.ok (Cell.dict [("k", Cell.list [Cell.dict [("n", Cell.int 2)]])]))
          else HttpResp.response 200
            (Except.ok (Cell.dict [("k", Cell.list [Cell.dict [("n", Cell.int 1)]])])))
        "p" () 2 "k" 2 (fun _ => [0, 1])).1
      = Except.ok ⟨["n"], [[Cell.int 1], [Cell.int 2]]⟩ := rfl

/-- C8 (amended): if any single page request of a `get_all_data` run fails
— a transport/network error, a body that fails to decode as JSON, or a
decoded body lacking the array at `array_key` (`pageItems` returns an
error for page `i`) — then every concurrent group whose page range covers
page `i` fails as a whole, and the entire multi-page fetch returns an
error rather than a partial table; no error is recovered inside the
fetcher.  A non-2xx status by itself is *not* among the failures: the
source never calls `raise_for_status` and aiohttp does not raise on
status by default, so a non-2xx response with a decodable body containing
the array is consumed as ordinary data (see the counterexample). -/
theorem C8_fail_fast {H : Type} (http : String → H → HttpResp)
    (url : String) (headers : H) (pages batch_size : Nat) (key : String)
    (sched : Nat → List Nat) (i : Nat) (e : FetchErr)
    (hbs : 1 ≤ batch_size) (hi1 : 1 ≤ i) (hi2 : i ≤ pages)
    (hfail : pageItems http headers key url i = Except.error e)
    (hsched : ∀ s ∈ pyRange 1 (pages + 1) batch_size,
      ∀ j, j ∈ sched s ↔ j < min (s + batch_size - 1) pages + 1 - s) :
    (∃ e', (get_all_data http url headers pages key batch_size sched).1
        = Except.error e')
    ∧ (∀ s eP ord, s ≤ i → i ≤ eP → (∀ j, j ∈ ord ↔ j < eP + 1 - s) →
        ∃ e', (get_data_for_page_range http url s eP headers key ord).1
          = Except.error e') := by
  have hgroup : ∀ s eP ord, s ≤ i → i ≤ eP → (∀ j, j ∈ ord ↔ j < eP + 1 - s) →
      ∃ e', (get_data_for_page_range http url s eP headers key ord).1
        = Except.error e' := by
    intro s eP ord hs he hord
    cases hres : (get_data_for_page_range http url s eP headers key ord).1 with
    | error e' => exact ⟨e', rfl⟩
    | ok t =>
      exfalso
      obtain ⟨its, hok⟩ := gdfpr_ok_inv http url headers key s eP ord t hord hres i hs he
      rw [hok] at hfail
      exact Except.noConfusion hfail
  refine ⟨?_, hgroup⟩
  cases hR : (runBatches http url headers pages key batch_size sched
      (pyRange 1 (pages + 1) batch_size)).1 with
  | error e2 =>
    refine ⟨e2, ?_⟩
    show (match (runBatches http url headers pages key batch_size sched
        (pyRange 1 (pages + 1) batch_size)).1 with
      | Except.error e => Except.error e
      | Except.ok dfs => concatTables dfs) = _
    rw [hR]
  | ok ts =>
    exfalso
    have hbridge := batches_eq_chunks batch_size pages (by omega) 1 (le_refl 1)
    rw [show pages + 1 - 1 = pages from by omega] at hbridge
    have hchunks : i ∈ ((pyRange 1 (pages + 1) batch_size).map
        (fun s => List.range' s (min (s + batch_size - 1) pages + 1 - s))).flatten := by
      rw [hbridge, chunksOf_flatten batch_size (by omega)]
      exact List.mem_range'_1.mpr ⟨hi1, by omega⟩
    obtain ⟨L, hL, hiL⟩ := List.mem_flatten.mp hchunks
    obtain ⟨s, hsStarts, rfl⟩ := List.mem_map.mp hL
    have hbounds := List.mem_range'_1.mp hiL
    obtain ⟨t, ht⟩ := runBatches_ok_inv http url headers pages key batch_size sched
      (pyRange 1 (pages + 1) batch_size) ts hR s hsStarts
    obtain ⟨e', he'⟩ := hgroup s (min (s + batch_size - 1) pages) (sched s)
      hbounds.1 (by omega) (hsched s hsStarts)
    rw [ht] at he'
    exact Except.noConfusion he'

/-- C8 witness: three pages with `batch_size = 2` where page 2's body lacks
the `"k"` array: the batch of pages 1–2 fails as a group, the whole fetch
returns an error, and the trace shows batch 2 was never requested. -/
theorem C8_fail_fast_witness :
    pageItems (fun u _ => if u = "p2" then HttpResp.response 200 (Except.ok (Cell.dict []))
        else HttpResp.response 200 (Except.ok (Cell.dict [("k", Cell.list [])])))
      () "k" "p" 2
      = Except.error (FetchErr.keyError "k")
    ∧ (∃ e', (get_all_data
        (fun u _ => if u = "p2" then HttpResp.response 200 (Except.ok (Cell.dict []))
          else HttpResp.response 200 (Except.ok (Cell.dict [("k", Cell.list [])])))
        "p" () 3 "k" 2 (fun s => List.range (min (s + 2 - 1) 3 + 1 - s))).1
      = Except.error e')
    ∧ (∃ e', (get_data_for_page_range
        (fun u _ => if u = "p2" then HttpResp.response 200 (Except.ok (Cell.dict []))
          else HttpResp.response 200 (Except.ok (Cell.dict [("k", Cell.list [])])))
        "p" 1 2 () "k" [0, 1]).1 = Except.error e') := by
  have hC8 := C8_fail_fast
    (fun u _ => if u = "p2" then HttpResp.response 200 (Except.ok (Cell.dict []))
      else HttpResp.response 200 (Except.ok (Cell.dict [("k", Cell.list [])])))
    "p" () 3 2 "k" (fun s => List.range (min (s + 2 - 1) 3 + 1 - s)) 2
    (FetchErr.keyError "k") (by omega) (by omega) (by omega) rfl
    (fun s _ j => List.mem_range)
  exact ⟨rfl, hC8.1, hC8.2 1 2 [0, 1] (by omega) (by omega) (fun j => by
    show j ∈ [0, 1] ↔ _
    simp only [List.mem_cons, List.not_mem_nil, or_false]
    omega)⟩

/-- C9: `get_harvest_pages` issues exactly one GET request, to page 1 (URL
`url ++ "1"`); on a successful decoded object body containing both keys and
a non-error status it returns the pair
`(data["total_pages"], data["total_entries"])`; on a transport error, a
4xx/5xx status, a JSON decode failure, or a body missing either key, it
returns the sentinel `(None, None)` instead of raising. -/
theorem C9_get_harvest_pages {H : Type} (http : String → H → HttpResp)
    (url : String) (headers : H) :
    (get_harvest_pages http url headers).2 = [url ++ "1"]
    ∧ (http (url ++ "1") headers = HttpResp.transportError →
        (get_harvest_pages http url headers).1 = Except.ok (Option.none, Option.none))
    ∧ (∀ s body, http (url ++ "1") headers = HttpResp.response s body →
        400 ≤ s → s < 600 →
        (get_harvest_pages http url headers).1 = Except.ok (Option.none, Option.none))
    ∧ (∀ s e, http (url ++ "1") headers = HttpResp.response s (Except.error e) →
        (get_harvest_pages http url headers).1 = Except.ok (Option.none, Option.none))
    ∧ (∀ s kvs, http (url ++ "1") headers = HttpResp.response s (Except.ok (Cell.dict kvs)) →
        lookupKV kvs "total_pages" = Option.none ∨ lookupKV kvs "total_entries" = Option.none →
        (get_harvest_pages http url headers).1 = Except.ok (Option.none, Option.none))
    ∧ (∀ s kvs tp te, http (url ++ "1") headers = HttpResp.response s (Except.ok (Cell.dict kvs)) →
        ¬(400 ≤ s ∧ s < 600) →
        lookupKV kvs "total_pages" = some tp → lookupKV kvs "total_entries" = some te →
        (get_harvest_pages http url headers).1 = Except.ok (some tp, some te)) := by
  refine ⟨rfl, ?_, ?_, ?_, ?_, ?_⟩
  · intro h; simp only [get_harvest_pages, h]
  · intro s body h h4 h6
    simp only [get_harvest_pages, h]
    rw [if_pos ⟨h4, h6⟩]
  · intro s e h
    simp only [get_harvest_pages, h]
    by_cases hs : 400 ≤ s ∧ s < 600
    · rw [if_pos hs]
    · rw [if_neg hs]
  · intro s kvs h hor
    simp only [get_harvest_pages, h]
    by_cases hs : 400 ≤ s ∧ s < 600
    · rw [if_pos hs]
    · rw [if_neg hs]
      rcases hor with hp | he
      · rw [hp]
      · cases hq : lookupKV kvs "total_pages" with
        | none => rfl
        | some tp => rw [he]
  · intro s kvs tp te h hs hp he
    simp only [get_harvest_pages, h]
    rw [if_neg hs, hp, he]

/-- C9 witness: the success conjunct and the transport-failure conjunct at
concrete collaborators. -/
theorem C9_get_harvest_pages_witness :
    (get_harvest_pages
        (fun _ _ => HttpResp.response 200 (Except.ok
          (Cell.dict [("total_pages", Cell.int 2), ("total_entries", Cell.int 30)])))
        "h" ()).1
      = Except.ok (some (Cell.int 2), some (Cell.int 30))
    ∧ (get_harvest_pages (fun _ _ => HttpResp.transportError) "h" ()).1
      = Except.ok (Option.none, Option.none)
    ∧ (get_harvest_pages (fun _ _ => HttpResp.transportError) "h" ()).2 = ["h1"] :=
  ⟨(C9_get_harvest_pages _ "h" ()).2.2.2.2.2 200 _ _ _ rfl (by omega) rfl rfl,
   (C9_get_harvest_pages _ "h" ()).2.1 rfl,
   (C9_get_harvest_pages _ "h" ()).1⟩

end DPT
